import Mathlib

/-!
Shallow embedding of the media ingestion and deduplication pipeline of
`src/electron/scanner.ts` (class `FileScanner`), together with the store
schema of `src/electron/db/schema.ts` (`mediaFiles`, `thumbnails`).

Modelling conventions:
* The SQLite store is modelled as in-memory lists (`db`, `thumbs`) carried in
  `ScanState`; `insert ... returning id` uses the `nextId` counter, matching
  SQLite's autoincrement.  `update` rewrites the matching row in place.
* External, fallible operations (sharp probes and conversions, ffmpeg frame
  and waveform subprocesses including their timeouts, `exifr.parse`,
  `music-metadata.parseFile`, and the store's `.run()` writes) are modelled by
  per-file outcome fields (`ImageEvents`, `VideoEvents`, `AudioEvents`): a
  `Bool` that is `false` exactly when the corresponding call throws, or an
  `Except` carrying the parsed value or the thrown message.
* JavaScript exception control flow is modelled with `Except Unit Unit × ScanState`:
  `.error ()` is the distinguished thrown `'Scan cancelled'` signal (the only
  exception that escapes `processFile`/`walk`); every other exception is
  caught where the source catches it and is translated to its local handler.
  Crucially the state component survives the exception, matching the in-place
  mutation of `result` and the store in the source.
* The `AbortSignal` is modelled by a logical clock: `checkAbort` consumes one
  tick per `signal?.aborted` check, and the signal reads aborted from the
  `cancelAt` threshold on; once aborted it stays aborted, as for a real token.
* Timestamps (`mtime`, `birthtime`) are modelled as `FsTime`, carrying the
  epoch milliseconds together with the calendar year that
  `Date.prototype.getFullYear` would report for them.
* The md5 digest is an abstract parameter `digest : List Nat → String` of the
  environment; `calculateHash` feeds it exactly the byte sequence the source
  streams into `crypto.createHash('md5')`.
* File contents are byte lists (`List Nat`); image bytes produced by thumbnail
  generation are abstracted to a `ThumbSource` tag recording which generator
  produced them (the claims only ever distinguish the generators).
* A `trace` of `ScanAction`s records externally observable invocations that leave
  no store footprint (fingerprint computation, waveform generation), so that
  claims of the form "X is never invoked" are statable.
-/

/-! ## File classification (`getFileType`, scanner.ts lines 495-508) -/

inductive FileType where
  | image
  | video
  | audio
  | document
  | project
  | unknown
deriving DecidableEq, Repr

def imagesExts : List String := [".jpg", ".jpeg", ".png", ".gif", ".webp", ".bmp", ".svg"]

def videosExts : List String := [".mp4", ".mov", ".avi", ".mkv", ".webm"]

def audioExts : List String := [".mp3", ".wav", ".flac", ".aac", ".m4a"]

def docsExts : List String := [".pdf", ".doc", ".docx", ".txt"]

def projectsExts : List String := [".als", ".uproject", ".unity", ".logicx", ".flp", ".prproj", ".drp"]

/-- `getFileType` of scanner.ts: pure mapping from the lower-cased extension
(with leading dot) to the media category. -/
def getFileType (ext : String) : FileType :=
  if imagesExts.contains ext then .image
  else if videosExts.contains ext then .video
  else if audioExts.contains ext then .audio
  else if docsExts.contains ext then .document
  else if projectsExts.contains ext then .project
  else .unknown

/-! ## Filesystem timestamps and stat results -/

/-- A filesystem timestamp: epoch milliseconds plus the calendar year that
`Date.prototype.getFullYear()` reports for it. -/
structure FsTime where
  ms : Int
  year : Int
deriving DecidableEq, Repr

/-- Result of `fs.promises.stat`: the fields the scanner reads. -/
structure Stat where
  size : Nat
  mtime : FsTime
  birthtime : FsTime
deriving DecidableEq, Repr

/-! ## Metadata model -/

/-- A date-like value found in an embedded metadata container, as seen through
`new Date(val)`: whether it parses (`!isNaN(d.getTime())`) and the year
`getFullYear()` reports when it does. -/
structure ExifDate where
  parses : Bool
  year : Int
deriving DecidableEq, Repr

/-- The date-like keys `exifr.parse` may return, before sanitization
(scanner.ts line 398: `ModifyDate`, `DateTimeOriginal`, `CreateDate`,
`modify_date`, `date_time_original`, `create_date`).  `none` models an absent
(or falsy) key. -/
structure RawImgMeta where
  ModifyDate : Option ExifDate
  DateTimeOriginal : Option ExifDate
  CreateDate : Option ExifDate
  modify_date : Option ExifDate
  date_time_original : Option ExifDate
  create_date : Option ExifDate
deriving DecidableEq, Repr

/-- A date value stored in sanitized image metadata: either a surviving
embedded date or an injected filesystem timestamp. -/
inductive MetaDate where
  | exif (d : ExifDate)
  | fsTime (t : FsTime)
deriving DecidableEq, Repr

/-- Sanitized image metadata (the value persisted for images). -/
structure ImgMeta where
  ModifyDate : Option MetaDate
  DateTimeOriginal : Option MetaDate
  CreateDate : Option MetaDate
  modify_date : Option MetaDate
  date_time_original : Option MetaDate
  create_date : Option MetaDate
  fallback : Bool
  error : Option String
deriving DecidableEq, Repr

/-- Audio tag fields extracted via `music-metadata` (scanner.ts lines 264-270). -/
structure AudioTags where
  title : Option String
  artist : Option String
  album : Option String
  genre : Option String
  year : Option Int
deriving DecidableEq, Repr

/-- The empty object `{}` that `audioMeta` is initialised to. -/
def emptyTags : AudioTags := ⟨none, none, none, none, none⟩

/-- Video metadata (scanner.ts lines 470-482): filesystem timestamps with a
`fallback` marker. -/
structure VidMeta where
  ModifyDate : FsTime
  modify_date : FsTime
  CreateDate : FsTime
  create_date : FsTime
  fallback : Bool
deriving DecidableEq, Repr

/-- The JSON `metadata` column of a media row. -/
inductive MetaJson where
  | placeholder
  | image (m : ImgMeta)
  | audio (t : AudioTags)
  | video (m : VidMeta)
deriving DecidableEq, Repr

/-! ## Store rows (`media_files` and `thumbnails` of schema.ts) -/

/-- One `media_files` row. -/
structure MediaRecord where
  id : Nat
  filepath : String
  filename : String
  type : FileType
  size : Nat
  createdAt : Int
  hash : Option String
  metadata : MetaJson
deriving DecidableEq, Repr

/-- Which generator produced a thumbnail's bytes (abstraction of the blob). -/
inductive ThumbSource where
  | image
  | videoFrame
  | cover
  | waveform
  | generic
deriving DecidableEq, Repr

/-- One `thumbnails` row. -/
structure ThumbRow where
  mediaId : Nat
  source : ThumbSource
  format : String
deriving DecidableEq, Repr

/-- Externally observable invocations that leave no store footprint. -/
inductive ScanAction where
  | fingerprint (path : String)
  | waveform (path : String)
deriving DecidableEq, Repr

/-! ## Per-file external outcomes -/

/-- `sharp(filePath).metadata()` result (width/height may be undefined). -/
structure SharpMeta where
  width : Option Nat
  height : Option Nat
deriving DecidableEq, Repr

/-- Outcomes of external calls made for an image file. -/
structure ImageEvents where
  /-- `sharp(filePath).metadata()` (line 137): dimension probe. -/
  probe : Except String SharpMeta
  /-- resize + webp encode + thumbnail insert (lines 171-180) succeed. -/
  thumbOk : Bool
  /-- `exifr.parse` (line 388): raw metadata, `none` when it returns null. -/
  exif : Except String (Option RawImgMeta)
  /-- the metadata `update ... run()` (lines 460-463) succeeds. -/
  metaUpdateOk : Bool
deriving Repr

/-- Outcomes of external calls made for a video file. -/
structure VideoEvents where
  /-- the raced ffmpeg frame extraction (lines 195-217) resolves in time. -/
  ffmpegOk : Bool
  /-- sharp conversion + thumbnail insert (lines 228-237) succeed. -/
  convertOk : Bool
  /-- the metadata `update ... run()` (line 484) succeeds. -/
  metaUpdateOk : Bool
deriving Repr

/-- Outcomes of external calls made for an audio file. -/
structure AudioEvents where
  /-- `parseFile` (line 261) succeeds. -/
  parseOk : Bool
  /-- the tags it returns when it does. -/
  tags : AudioTags
  /-- `common.picture` is non-empty (line 272). -/
  hasCover : Bool
  /-- sharp conversion of the cover bytes (lines 275-278) succeeds. -/
  coverResizeOk : Bool
  /-- the metadata `update ... run()` (lines 285-288) succeeds. -/
  metaUpdateOk : Bool
  /-- the raced ffmpeg waveform render (lines 304-322) resolves in time. -/
  waveformRaceOk : Bool
  /-- sharp conversion + thumbnail insert of the waveform (lines 329-338) succeed. -/
  waveformConvertOk : Bool
  /-- the generic placeholder composite + insert (lines 349-368) succeeds. -/
  genericOk : Bool
deriving Repr

/-- A file as the walker sees it: its basename, its lower-cased extension
(`path.extname(filePath).toLowerCase()`), the `fs.promises.stat` outcome, its
content bytes, and the outcomes of the external calls its processing makes. -/
structure FileNode where
  name : String
  ext : String
  stat : Except String Stat
  content : List Nat
  imageEv : ImageEvents
  videoEv : VideoEvents
  audioEv : AudioEvents
deriving Repr

/-! ## Scan state, options, environment -/

/-- `ScanResult` counters plus the store and instrumentation. -/
structure ScanState where
  added : Nat
  skipped : Nat
  errors : Nat
  nextId : Nat
  db : List MediaRecord
  thumbs : List ThumbRow
  clock : Nat
  trace : List ScanAction
deriving DecidableEq, Repr

structure ScanOptions where
  includeSubfolders : Bool
  scanProjects : Bool
deriving DecidableEq, Repr

/-- Scan environment: the abstract md5 digest, the options, and the clock
tick (if any) from which the `AbortSignal` reads aborted. -/
structure Env where
  digest : List Nat → String
  opts : ScanOptions
  cancelAt : Option Nat

def incAdded (s : ScanState) : ScanState := { s with added := s.added + 1 }

def incSkipped (s : ScanState) : ScanState := { s with skipped := s.skipped + 1 }

def incErrors (s : ScanState) : ScanState := { s with errors := s.errors + 1 }

def pushTrace (s : ScanState) (a : ScanAction) : ScanState := { s with trace := s.trace ++ [a] }

/-- The filepaths of the store, in row order. -/
def pathsOf (db : List MediaRecord) : List String := db.map (·.filepath)

/-- `select ... where eq(mediaFiles.filepath, p)` is non-empty. -/
def pathIn (db : List MediaRecord) (p : String) : Bool := db.any (·.filepath == p)

/-- `update mediaFiles set metadata where id = i`. -/
def updateMeta (db : List MediaRecord) (i : Nat) (m : MetaJson) : List MediaRecord :=
  db.map (fun r => if r.id == i then { r with metadata := m } else r)

/-- `insert into thumbnails values (mediaId, data, 'webp')`. -/
def insertThumb (s : ScanState) (mid : Nat) (src : ThumbSource) : ScanState :=
  { s with thumbs := s.thumbs ++ [{ mediaId := mid, source := src, format := "webp" }] }

/-- Whether the signal reads aborted at tick `k`. -/
def abortedAt : Option Nat → Nat → Bool
  | none, _ => false
  | some n, k => decide (n ≤ k)

/-- One `signal?.aborted` check: reads the flag and consumes a tick. -/
def checkAbort (env : Env) (s : ScanState) : Bool × ScanState :=
  (abortedAt env.cancelAt s.clock, { s with clock := s.clock + 1 })

/-! ## Content fingerprinting (`calculateHash`, scanner.ts lines 510-539) -/

def FILE_SIZE_THRESHOLD : Nat := 50 * 1024 * 1024

/-- UTF-8 bytes of a string, as fed to `hash.update(<string>)`. -/
def strBytes (s : String) : List Nat := s.toUTF8.toList.map (·.toNat)

/-- `Buffer.alloc(16 * 1024)` zero-filled, then `fd.read(buffer, 0, 16 * 1024, 0)`
fills its head with the file's leading bytes. -/
def readLeadingChunk (content : List Nat) : List Nat :=
  content.take (16 * 1024) ++ List.replicate (16 * 1024 - (content.take (16 * 1024)).length) 0

/-- `calculateHash`: full-content digest for small files; for files above the
50 MB threshold, a surrogate digest over size, mtime and the first 16 KiB. -/
def calculateHash (digest : List Nat → String) (content : List Nat) (st : Stat) : String :=
  if st.size > FILE_SIZE_THRESHOLD then
    digest (strBytes (toString st.size) ++ strBytes (toString st.mtime.ms) ++ readLeadingChunk content)
  else
    digest content

/-! ## Image metadata sanitization (scanner.ts lines 383-456) -/

/-- Line 406-411: a present date value is valid when `new Date(val)` parses
and its year is at least 1970. -/
def validDate : Option ExifDate → Bool
  | some d => d.parses && decide (d.year ≥ 1970)
  | none => false

/-- A present-but-invalid date key is deleted (lines 413-416); a valid one
survives. -/
def keepValid (v : Option ExifDate) : Option MetaDate :=
  match v with
  | some d => if d.parses && decide (d.year ≥ 1970) then some (.exif d) else none
  | none => none

/-- Whether any of the six date keys holds a valid date (`hasValidDate`). -/
def hasValidDate (raw : RawImgMeta) : Bool :=
  validDate raw.ModifyDate || validDate raw.DateTimeOriginal || validDate raw.CreateDate ||
    validDate raw.modify_date || validDate raw.date_time_original || validDate raw.create_date

def emptyRawImgMeta : RawImgMeta := ⟨none, none, none, none, none, none⟩

/-- Lines 422-437: when no valid date survives, inject mtime as modify date,
birthtime (if its year is at least 1970, else mtime) as create date, and set
the `fallback` marker. -/
def injectDates (m : ImgMeta) (st : Stat) : ImgMeta :=
  let create := if st.birthtime.year ≥ 1970 then MetaDate.fsTime st.birthtime else MetaDate.fsTime st.mtime
  { m with
    ModifyDate := some (.fsTime st.mtime)
    modify_date := some (.fsTime st.mtime)
    CreateDate := some create
    create_date := some create
    fallback := true }

/-- The date-sanitization pass over a successful `exifr.parse` result
(lines 397-437); `none` models `exifr` returning null (line 420 then creates
the empty object). -/
def sanitizeImageMeta (rawOpt : Option RawImgMeta) (st : Stat) : ImgMeta :=
  let raw := rawOpt.getD emptyRawImgMeta
  let m : ImgMeta :=
    { ModifyDate := keepValid raw.ModifyDate
      DateTimeOriginal := keepValid raw.DateTimeOriginal
      CreateDate := keepValid raw.CreateDate
      modify_date := keepValid raw.modify_date
      date_time_original := keepValid raw.date_time_original
      create_date := keepValid raw.create_date
      fallback := false
      error := none }
  if hasValidDate raw then m else injectDates m st

/-- The image metadata extractor including the catch branch (lines 440-456):
an outright `exifr` failure yields the minimal fallback object carrying the
error message. -/
def extractImageMeta (exif : Except String (Option RawImgMeta)) (st : Stat) : ImgMeta :=
  match exif with
  | .ok raw => sanitizeImageMeta raw st
  | .error msg =>
    let create := if st.birthtime.year ≥ 1970 then MetaDate.fsTime st.birthtime else MetaDate.fsTime st.mtime
    { ModifyDate := some (.fsTime st.mtime)
      DateTimeOriginal := none
      CreateDate := some create
      modify_date := some (.fsTime st.mtime)
      date_time_original := none
      create_date := some create
      fallback := true
      error := some msg }

/-- Video metadata (lines 470-482): file stats with the fallback marker. -/
def videoMetaValue (st : Stat) : VidMeta :=
  let create := if st.birthtime.year ≥ 1970 then st.birthtime else st.mtime
  { ModifyDate := st.mtime
    modify_date := st.mtime
    CreateDate := create
    create_date := create
    fallback := true }

/-! ## Per-type thumbnail / enrichment stages of `processFile` -/

/-- Video thumbnail generation (scanner.ts lines 184-251).  An ffmpeg failure
or timeout, or a sharp conversion failure, is caught by the `vidErr` handler
and only logged; a cancellation observed after the race (line 222) is
rethrown through it. -/
def videoThumb (env : Env) (ev : VideoEvents) (mediaId : Nat) (s : ScanState) :
    Except Unit Unit × ScanState :=
  if ev.ffmpegOk then
    let p := checkAbort env s
    if p.1 then (.error (), p.2)
    else if ev.convertOk then (.ok (), insertThumb p.2 mediaId .videoFrame)
    else (.ok (), p.2)
  else (.ok (), s)

/-- The generic placeholder fallback (lines 348-371): its own failure is
caught and only logged, leaving no thumbnail. -/
def audioGeneric (ev : AudioEvents) (mediaId : Nat) (s : ScanState) : ScanState :=
  if ev.genericOk then insertThumb s mediaId .generic else s

/-- The audio block of `processFile` (scanner.ts lines 252-378).  Tag parsing
and cover conversion share one `try` (lines 260-282): a throw anywhere in it
leaves `coverBuffer` null (and `audioMeta` empty iff `parseFile` itself threw).
A failing metadata update throws out of the enclosing `try`, skipping the
thumbnail work (caught at line 375).  With a cover in hand the waveform
renderer is never spawned; otherwise it is, and on its failure the generic
placeholder is attempted.  A cancellation observed at line 324 is rethrown by
the `waveformErr` handler but swallowed by the outer `audioErr` handler, so
this stage always returns normally; the caller's next check (line 380)
re-raises it. -/
def audioStage (env : Env) (filePath : String) (ev : AudioEvents) (mediaId : Nat)
    (s : ScanState) : ScanState :=
  let audioMeta := if ev.parseOk then ev.tags else emptyTags
  let hasCoverBuf := ev.parseOk && ev.hasCover && ev.coverResizeOk
  if !ev.metaUpdateOk then s
  else
    let s := { s with db := updateMeta s.db mediaId (.audio audioMeta) }
    if hasCoverBuf then insertThumb s mediaId .cover
    else
      let s := pushTrace s (.waveform filePath)
      if ev.waveformRaceOk then
        let p := checkAbort env s
        if p.1 then p.2
        else if ev.waveformConvertOk then insertThumb p.2 mediaId .waveform
        else audioGeneric ev mediaId p.2
      else audioGeneric ev mediaId s

/-- Image metadata extraction and persistence (lines 383-467): the extractor
always yields an object; the update is attempted and its own failure is caught
and only logged (lines 464-466). -/
def imageMetaStage (ev : ImageEvents) (st : Stat) (mediaId : Nat) (s : ScanState) : ScanState :=
  let m := extractImageMeta ev.exif st
  if ev.metaUpdateOk then { s with db := updateMeta s.db mediaId (.image m) } else s

/-- The junk-image pre-filter condition (lines 134-146): for images whose
dimension probe succeeds with both dimensions (defaulted to 0) under 400, the
file is skipped; a failing probe bypasses the filter (line 143-145). -/
def junkImage (t : FileType) (ev : ImageEvents) : Bool :=
  t == FileType.image &&
    (match ev.probe with
     | .ok m => decide (m.width.getD 0 < 400) && decide (m.height.getD 0 < 400)
     | .error _ => false)

/-! ## `processFile` (scanner.ts lines 107-493) -/

/-- The thumbnail stage dispatch of `processFile` (scanner.ts lines 166-378):
single-step image resize (its failure caught and logged), video frame
extraction, or the audio block. -/
def thumbStage (env : Env) (filePath : String) (node : FileNode) (t : FileType) (mediaId : Nat)
    (s : ScanState) : Except Unit Unit × ScanState :=
  match t with
  | .image => (.ok (), if node.imageEv.thumbOk then insertThumb s mediaId .image else s)
  | .video => videoThumb env node.videoEv mediaId s
  | .audio => (.ok (), audioStage env filePath node.audioEv mediaId s)
  | _ => (.ok (), s)

/-- The enrichment that follows the placeholder insert and its cancellation
check (scanner.ts lines 166-487): thumbnail stage, cancellation check
(line 380), then per-type metadata and `added++` (line 487).  The video
metadata update (line 484) is the one enrichment write not wrapped in its own
`try`, so its failure lands in the outer handler as `errors++` without
`added++`. -/
def metaStage (env : Env) (node : FileNode) (t : FileType) (st : Stat) (mediaId : Nat)
    (s1 : ScanState) : Except Unit Unit × ScanState :=
  let p := checkAbort env s1
  if p.1 then (.error (), p.2) else
  let s2 := p.2
  match t with
  | .image => (.ok (), incAdded (imageMetaStage node.imageEv st mediaId s2))
  | .video =>
    if node.videoEv.metaUpdateOk then
      (.ok (), incAdded { s2 with db := updateMeta s2.db mediaId (.video (videoMetaValue st)) })
    else (.ok (), incErrors s2)
  | _ => (.ok (), incAdded s2)

def processEnrich (env : Env) (filePath : String) (node : FileNode) (t : FileType) (st : Stat)
    (mediaId : Nat) (s : ScanState) : Except Unit Unit × ScanState :=
  match thumbStage env filePath node t mediaId s with
  | (.error e, s1) => (.error e, s1)
  | (.ok _, s1) => metaStage env node t st mediaId s1

/-- Fingerprint, placeholder insert (scanner.ts lines 148-162), the
cancellation check of line 164, then enrichment. -/
def processInsert (env : Env) (filePath : String) (node : FileNode) (t : FileType) (st : Stat)
    (s : ScanState) : Except Unit Unit × ScanState :=
  let h := calculateHash env.digest node.content st
  let s := pushTrace s (.fingerprint filePath)
  let mediaId := s.nextId
  let s : ScanState :=
    { s with
      db := s.db ++ [{ id := mediaId, filepath := filePath, filename := node.name,
                       type := t, size := st.size, createdAt := st.birthtime.ms,
                       hash := some h, metadata := .placeholder }]
      nextId := s.nextId + 1 }
  let p := checkAbort env s
  if p.1 then (.error (), p.2) else
  processEnrich env filePath node t st mediaId p.2

/-- The per-file state machine.  Stages in order: cancellation check,
existing-path check, stat, classify (+ project opt-in), junk filter,
fingerprint, placeholder insert, cancellation check, per-type thumbnail,
cancellation check, per-type metadata, `added++`.  A stat failure is caught by
the outer handler (line 488) as `errors++`.  Only the cancellation signal
(`.error ()`) escapes. -/
def processFile (env : Env) (filePath : String) (node : FileNode) (s0 : ScanState) :
    Except Unit Unit × ScanState :=
  let p := checkAbort env s0
  if p.1 then (.error (), p.2) else
  let s := p.2
  if pathIn s.db filePath then (.ok (), incSkipped s) else
  match node.stat with
  | .error _ => (.ok (), incErrors s)
  | .ok st =>
    let t := getFileType node.ext
    if t = .unknown then (.ok (), s) else
    if t = .project ∧ ¬env.opts.scanProjects then (.ok (), s) else
    if junkImage t node.imageEv then (.ok (), incSkipped s) else
    processInsert env filePath node t st s

/-! ## Directory tree and the walker (scanner.ts lines 43-105) -/

mutual
/-- A directory entry as `readdir` + `lstat` reveal it: a plain file, a
subdirectory (with whether its own `readdir` succeeds), or an entry whose
`lstat` throws. -/
inductive Entry where
  | file : FileNode → Entry
  | dir : String → Bool → Entries → Entry
  | broken : String → Entry
/-- The entry list of one directory. -/
inductive Entries where
  | nil : Entries
  | cons : Entry → Entries → Entries
end

/-- `path.join(dir, file)` for the sandboxed names the walker produces. -/
def joinP (dir name : String) : String := dir ++ "/" ++ name

mutual
/-- One iteration of the entry loop (lines 78-99): an `lstat` failure counts
an error and continues; a directory is recursed into only with
`includeSubfolders` (the `walk` body — cancellation check, `readdir` whose
failure counts an error and returns, then the entry loop — is inlined here so
the recursion is structural); a file runs `processFile`.  Cancellation
rethrows. -/
def walkEntry (env : Env) (dir : String) (e : Entry) (s : ScanState) :
    Except Unit Unit × ScanState :=
  match e with
  | .broken _ => (.ok (), incErrors s)
  | .file node => processFile env (joinP dir node.name) node s
  | .dir name readOk es =>
    if env.opts.includeSubfolders then
      let p := checkAbort env s
      if p.1 then (.error (), p.2)
      else if !readOk then (.ok (), incErrors p.2)
      else walkEntries env (joinP dir name) es p.2
    else (.ok (), s)

/-- The entry loop (lines 78-99) with its per-entry cancellation check. -/
def walkEntries (env : Env) (dir : String) (es : Entries) (s : ScanState) :
    Except Unit Unit × ScanState :=
  match es with
  | .nil => (.ok (), s)
  | .cons e rest =>
    let p := checkAbort env s
    if p.1 then (.error (), p.2)
    else
      match walkEntry env dir e p.2 with
      | (.ok _, s2) => walkEntries env dir rest s2
      | (.error u, s2) => (.error u, s2)
end

/-- `walk` (lines 65-105) on the scan's root directory: cancellation check,
then `readdir` (whose failure counts an error and returns), then the entry
loop.  (For subdirectories the same body is inlined in `walkEntry`.) -/
def walk (env : Env) (dir : String) (readOk : Bool) (es : Entries) (s : ScanState) :
    Except Unit Unit × ScanState :=
  let p := checkAbort env s
  if p.1 then (.error (), p.2)
  else if !readOk then (.ok (), incErrors p.2)
  else walkEntries env dir es p.2

/-- `scanDirectory` (lines 43-62): runs the walk and returns the accumulated
result whether or not the walk was unwound by cancellation (the catch only
logs). -/
def scanDirectory (env : Env) (dirPath : String) (readOk : Bool) (es : Entries)
    (s : ScanState) : ScanState :=
  (walk env dirPath readOk es s).2

/-- The initial state of a scan invocation over a store. -/
def initState (db : List MediaRecord) (thumbs : List ThumbRow) (nextId : Nat) : ScanState :=
  { added := 0, skipped := 0, errors := 0, nextId := nextId, db := db, thumbs := thumbs,
    clock := 0, trace := [] }

/-! ## Static views of a tree -/

mutual
/-- All `(filePath, node)` pairs of file entries in a tree, including those in
subdirectories. -/
def entryFiles (dir : String) : Entry → List (String × FileNode)
  | .file node => [(joinP dir node.name, node)]
  | .broken _ => []
  | .dir name _ es => entriesFiles (joinP dir name) es
def entriesFiles (dir : String) : Entries → List (String × FileNode)
  | .nil => []
  | .cons e rest => entryFiles dir e ++ entriesFiles dir rest
end

/-- All file paths of a tree. -/
def entriesPaths (dir : String) (es : Entries) : List String :=
  (entriesFiles dir es).map Prod.fst

mutual
/-- A tree none of whose visitable parts can raise a real error: no broken
entries, no failing `readdir`, every stat succeeds, and every video metadata
update succeeds (the one enrichment write whose failure escapes to the error
counter). -/
def cleanEntry : Entry → Bool
  | .broken _ => false
  | .file node =>
    (match node.stat with | .ok _ => true | .error _ => false) && node.videoEv.metaUpdateOk
  | .dir _ readOk es => readOk && cleanEntries es
def cleanEntries : Entries → Bool
  | .nil => true
  | .cons e rest => cleanEntry e && cleanEntries rest
end

/-! ## Duplicate query (`getDuplicates`, scanner.ts lines 541-561) -/

/-- Byte-wise lexicographic order on code points: the collation SQLite's
`ORDER BY hash` applies to these ASCII hex digests. -/
def lexLe : List Nat → List Nat → Bool
  | [], _ => true
  | _ :: _, [] => false
  | a :: as, b :: bs => if a < b then true else if b < a then false else lexLe as bs

def strKey (s : String) : List Nat := s.data.map (fun c => c.val.toNat)

def strLeB (a b : String) : Bool := lexLe (strKey a) (strKey b)

/-- `ORDER BY hash` over the nullable column (SQL NULLs sort first). -/
def hashLe (a b : Option String) : Bool :=
  match a, b with
  | none, _ => true
  | some _, none => false
  | some x, some y => strLeB x y

/-- The row order `ORDER BY mediaFiles.hash` produces. -/
def hashOrd (a b : MediaRecord) : Prop := hashLe a.hash b.hash = true

instance : DecidableRel hashOrd := fun a b => by unfold hashOrd; infer_instance

/-- `getDuplicates`: the hashes that occur on more than one row (`GROUP BY
hash HAVING count(*) > 1`), with SQL NULLs dropped by the `.filter`, then all
rows carrying any such hash, ordered by hash. -/
def getDuplicates (db : List MediaRecord) : List MediaRecord :=
  let duplicatedHashes := ((db.map (·.hash)).dedup).filter (fun h => 1 < db.countP (fun r => r.hash == h))
  let hashes := duplicatedHashes.filterMap id
  if hashes.isEmpty then []
  else (db.filter (fun r => hashes.any (fun h => r.hash == some h))).insertionSort hashOrd

/-! ## State-evolution relation

The store, thumbnail table and action trace only ever grow during a scan, and
every counter is monotone; `StateExtends` packages this and is established
below for every operation of the pipeline. -/

structure StateExtends (s s' : ScanState) : Prop where
  paths : pathsOf s.db <+: pathsOf s'.db
  thumbs : s.thumbs <+: s'.thumbs
  trace : s.trace <+: s'.trace
  added : s.added ≤ s'.added
  skipped : s.skipped ≤ s'.skipped
  errors : s.errors ≤ s'.errors
  nextId : s.nextId ≤ s'.nextId

/-! ## Concrete fixtures used by witnesses and counterexamples -/

/-- A concrete stand-in digest for witness computations. -/
def dgW : List Nat → String := fun l => toString l.length

def optsW : ScanOptions := { includeSubfolders := true, scanProjects := false }

def envW : Env := { digest := dgW, opts := optsW, cancelAt := none }

/-- `envW` with the signal set from tick 6 on (mid-scan for the two-file tree). -/
def envCancelW : Env := { digest := dgW, opts := optsW, cancelAt := some 6 }

def statW : Stat :=
  { size := 100, mtime := { ms := 1700000000000, year := 2023 },
    birthtime := { ms := 1600000000000, year := 2020 } }

def imgEvW : ImageEvents :=
  { probe := .ok { width := some 800, height := some 600 }, thumbOk := true,
    exif := .ok (some ⟨none, some ⟨true, 2020⟩, none, none, none, none⟩), metaUpdateOk := true }

def vidEvW : VideoEvents := { ffmpegOk := true, convertOk := true, metaUpdateOk := true }

def audEvW : AudioEvents :=
  { parseOk := true, tags := emptyTags, hasCover := false, coverResizeOk := false,
    metaUpdateOk := true, waveformRaceOk := true, waveformConvertOk := true, genericOk := true }

/-- A benign image file. -/
def nodeImgW : FileNode :=
  { name := "p.jpg", ext := ".jpg", stat := .ok statW, content := [1, 2, 3],
    imageEv := imgEvW, videoEv := vidEvW, audioEv := audEvW }

/-- A video file whose metadata `update ... run()` throws. -/
def nodeVidBadW : FileNode :=
  { name := "v.mp4", ext := ".mp4", stat := .ok statW, content := [1, 2, 3],
    imageEv := imgEvW, videoEv := { ffmpegOk := false, convertOk := false, metaUpdateOk := false },
    audioEv := audEvW }

/-- A directory holding just the bad video. -/
def treeVidBadW : Entries := .cons (.file nodeVidBadW) .nil

/-- First scan of `treeVidBadW` over an empty store. -/
def scanVidBad1 : ScanState := scanDirectory envW "r" true treeVidBadW (initState [] [] 1)

/-- Second scan of the unchanged `treeVidBadW` over the resulting store. -/
def scanVidBad2 : ScanState :=
  scanDirectory envW "r" true treeVidBadW (initState scanVidBad1.db scanVidBad1.thumbs scanVidBad1.nextId)

/-- Audio events: no cover, waveform fails, the generic placeholder composite
also fails. -/
def audEvAllFailW : AudioEvents :=
  { parseOk := true, tags := emptyTags, hasCover := false, coverResizeOk := false,
    metaUpdateOk := true, waveformRaceOk := false, waveformConvertOk := false, genericOk := false }

/-- Audio events: an embedded cover is found but its sharp conversion throws. -/
def audEvCoverFailW : AudioEvents :=
  { parseOk := true, tags := emptyTags, hasCover := true, coverResizeOk := false,
    metaUpdateOk := true, waveformRaceOk := true, waveformConvertOk := true, genericOk := true }

/-- Audio events: an embedded cover is found and converts. -/
def audEvCoverW : AudioEvents := { audEvCoverFailW with coverResizeOk := true }

/-- A small store row for duplicate-query witnesses. -/
def mkRecW (i : Nat) (p h : String) : MediaRecord :=
  { id := i, filepath := p, filename := p, type := .image, size := 1, createdAt := 0,
    hash := some h, metadata := .placeholder }

def dbDupW : List MediaRecord := [mkRecW 1 "a" "zz", mkRecW 2 "b" "aa", mkRecW 3 "c" "zz"]

/-- The second benign image, and a two-image tree for the cancellation witness. -/
def nodeImgW2 : FileNode := { nodeImgW with name := "q.jpg" }

def treeTwoImgW : Entries := .cons (.file nodeImgW) (.cons (.file nodeImgW2) .nil)

/-- An audio file with no cover art whose waveform render and generic
placeholder composite both fail. -/
def nodeAudBadW : FileNode :=
  { name := "s.mp3", ext := ".mp3", stat := .ok statW, content := [5],
    imageEv := imgEvW, videoEv := vidEvW, audioEv := audEvAllFailW }

/-- A stat just above the large-file threshold. -/
def statBigW : Stat :=
  { size := FILE_SIZE_THRESHOLD + 1, mtime := { ms := 1700000000000, year := 2023 },
    birthtime := { ms := 1600000000000, year := 2020 } }

/-- Raw image metadata whose only embedded date has year 1901. -/
def raw1901W : RawImgMeta :=
  { ModifyDate := none, DateTimeOriginal := some { parses := true, year := 1901 },
    CreateDate := none, modify_date := none, date_time_original := none, create_date := none }

/-! # Theorems

## Basic store lemmas -/

theorem pathIn_iff (db : List MediaRecord) (p : String) :
    pathIn db p = true ↔ p ∈ pathsOf db := by
  simp [pathIn, pathsOf, List.any_eq_true]

theorem pathsOf_updateMeta (db : List MediaRecord) (i : Nat) (m : MetaJson) :
    pathsOf (updateMeta db i m) = pathsOf db := by
  simp only [pathsOf, updateMeta, List.map_map]
  apply List.map_congr_left
  intro r _
  by_cases h : r.id = i <;> simp [h]

theorem pathsOf_append (db db2 : List MediaRecord) :
    pathsOf (db ++ db2) = pathsOf db ++ pathsOf db2 := by
  simp [pathsOf]

/-! ## `StateExtends` is reflexive, transitive, and holds for every primitive -/

theorem stateExtends_refl (s : ScanState) : StateExtends s s :=
  ⟨List.prefix_refl _, List.prefix_refl _, List.prefix_refl _, le_refl _, le_refl _, le_refl _, le_refl _⟩

theorem stateExtends_trans {a b c : ScanState} (h1 : StateExtends a b) (h2 : StateExtends b c) :
    StateExtends a c :=
  ⟨h1.paths.trans h2.paths, h1.thumbs.trans h2.thumbs, h1.trace.trans h2.trace,
    h1.added.trans h2.added, h1.skipped.trans h2.skipped, h1.errors.trans h2.errors,
    h1.nextId.trans h2.nextId⟩

theorem extends_incAdded (s : ScanState) : StateExtends s (incAdded s) := by
  refine ⟨?_, ?_, ?_, ?_, ?_, ?_, ?_⟩ <;> simp [incAdded]

theorem extends_incSkipped (s : ScanState) : StateExtends s (incSkipped s) := by
  refine ⟨?_, ?_, ?_, ?_, ?_, ?_, ?_⟩ <;> simp [incSkipped]

theorem extends_incErrors (s : ScanState) : StateExtends s (incErrors s) := by
  refine ⟨?_, ?_, ?_, ?_, ?_, ?_, ?_⟩ <;> simp [incErrors]

theorem extends_pushTrace (s : ScanState) (a : ScanAction) : StateExtends s (pushTrace s a) := by
  refine ⟨?_, ?_, ?_, ?_, ?_, ?_, ?_⟩ <;> simp [pushTrace]

theorem extends_insertThumb (s : ScanState) (mid : Nat) (src : ThumbSource) :
    StateExtends s (insertThumb s mid src) := by
  refine ⟨?_, ?_, ?_, ?_, ?_, ?_, ?_⟩ <;> simp [insertThumb]

theorem extends_checkAbort (env : Env) (s : ScanState) : StateExtends s (checkAbort env s).2 := by
  refine ⟨?_, ?_, ?_, ?_, ?_, ?_, ?_⟩ <;> simp [checkAbort]

theorem extends_updateMeta (s : ScanState) (i : Nat) (m : MetaJson) :
    StateExtends s { s with db := updateMeta s.db i m } := by
  refine ⟨?_, ?_, ?_, ?_, ?_, ?_, ?_⟩ <;> simp [pathsOf_updateMeta]

theorem extends_insertRecord (s : ScanState) (r : MediaRecord) :
    StateExtends s { s with db := s.db ++ [r], nextId := s.nextId + 1 } := by
  refine ⟨?_, ?_, ?_, ?_, ?_, ?_, ?_⟩ <;> simp [pathsOf_append]

theorem extends_audioGeneric (ev : AudioEvents) (mid : Nat) (s : ScanState) :
    StateExtends s (audioGeneric ev mid s) := by
  unfold audioGeneric
  split
  · exact extends_insertThumb s mid .generic
  · exact stateExtends_refl s

theorem extends_videoThumb (env : Env) (ev : VideoEvents) (mid : Nat) (s : ScanState) :
    StateExtends s (videoThumb env ev mid s).2 := by
  unfold videoThumb
  dsimp only
  repeat' split
  all_goals try dsimp only
  all_goals
    first
    | exact stateExtends_refl _
    | exact extends_checkAbort _ _
    | exact stateExtends_trans (extends_checkAbort _ _) (extends_insertThumb _ _ _)

theorem extends_audioStage (env : Env) (fp : String) (ev : AudioEvents) (mid : Nat)
    (s : ScanState) : StateExtends s (audioStage env fp ev mid s) := by
  unfold audioStage
  dsimp only
  repeat' split
  all_goals try dsimp only
  all_goals
    first
    | exact stateExtends_refl _
    | exact stateExtends_trans (extends_updateMeta _ _ _) (extends_insertThumb _ _ _)
    | exact stateExtends_trans (extends_updateMeta _ _ _)
        (stateExtends_trans (extends_pushTrace _ _) (extends_checkAbort _ _))
    | exact stateExtends_trans (extends_updateMeta _ _ _)
        (stateExtends_trans (extends_pushTrace _ _)
          (stateExtends_trans (extends_checkAbort _ _) (extends_insertThumb _ _ _)))
    | exact stateExtends_trans (extends_updateMeta _ _ _)
        (stateExtends_trans (extends_pushTrace _ _)
          (stateExtends_trans (extends_checkAbort _ _) (extends_audioGeneric _ _ _)))
    | exact stateExtends_trans (extends_updateMeta _ _ _)
        (stateExtends_trans (extends_pushTrace _ _) (extends_audioGeneric _ _ _))

theorem extends_imageMetaStage (ev : ImageEvents) (st : Stat) (mid : Nat) (s : ScanState) :
    StateExtends s (imageMetaStage ev st mid s) := by
  unfold imageMetaStage
  split
  · exact extends_updateMeta _ _ _
  · exact stateExtends_refl s

theorem extends_thumbStage (env : Env) (fp : String) (node : FileNode) (t : FileType)
    (mid : Nat) (s : ScanState) : StateExtends s (thumbStage env fp node t mid s).2 := by
  unfold thumbStage
  repeat' split
  all_goals
    first
    | exact stateExtends_refl _
    | exact extends_insertThumb _ _ _
    | exact extends_videoThumb _ _ _ _
    | exact extends_audioStage _ _ _ _ _

theorem extends_metaStage (env : Env) (node : FileNode) (t : FileType) (st : Stat)
    (mid : Nat) (s1 : ScanState) : StateExtends s1 (metaStage env node t st mid s1).2 := by
  unfold metaStage
  dsimp only
  repeat' split
  all_goals try dsimp only
  all_goals
    first
    | exact extends_checkAbort _ _
    | exact stateExtends_trans (extends_checkAbort _ _) (extends_incAdded _)
    | exact stateExtends_trans (extends_checkAbort _ _) (extends_incErrors _)
    | exact stateExtends_trans (extends_checkAbort _ _)
        (stateExtends_trans (extends_imageMetaStage _ _ _ _) (extends_incAdded _))
    | exact stateExtends_trans (extends_checkAbort _ _)
        (stateExtends_trans (extends_updateMeta _ _ _) (extends_incAdded _))

theorem extends_processEnrich (env : Env) (fp : String) (node : FileNode) (t : FileType)
    (st : Stat) (mid : Nat) (s : ScanState) :
    StateExtends s (processEnrich env fp node t st mid s).2 := by
  unfold processEnrich
  have hts := extends_thumbStage env fp node t mid s
  rcases hstep : thumbStage env fp node t mid s with ⟨r, s1⟩
  rw [hstep] at hts
  dsimp only at hts
  cases r with
  | error e => exact hts
  | ok u => exact stateExtends_trans hts (extends_metaStage _ _ _ _ _ _)

theorem extends_processInsert (env : Env) (fp : String) (node : FileNode) (t : FileType)
    (st : Stat) (s : ScanState) : StateExtends s (processInsert env fp node t st s).2 := by
  unfold processInsert
  dsimp only
  split
  all_goals try dsimp only
  · exact stateExtends_trans (extends_pushTrace _ _)
      (stateExtends_trans (extends_insertRecord _ _) (extends_checkAbort _ _))
  · exact stateExtends_trans (extends_pushTrace _ _)
      (stateExtends_trans (extends_insertRecord _ _)
        (stateExtends_trans (extends_checkAbort _ _) (extends_processEnrich _ _ _ _ _ _ _)))

theorem extends_processFile (env : Env) (fp : String) (node : FileNode) (s0 : ScanState) :
    StateExtends s0 (processFile env fp node s0).2 := by
  unfold processFile
  dsimp only
  repeat' split
  all_goals try dsimp only
  all_goals
    first
    | exact extends_checkAbort _ _
    | exact stateExtends_trans (extends_checkAbort _ _) (extends_incSkipped _)
    | exact stateExtends_trans (extends_checkAbort _ _) (extends_incErrors _)
    | exact stateExtends_trans (extends_checkAbort _ _) (extends_processInsert _ _ _ _ _ _)

mutual
theorem extends_walkEntry (env : Env) (dir : String) (e : Entry) (s : ScanState) :
    StateExtends s (walkEntry env dir e s).2 := by
  cases e with
  | broken name => exact extends_incErrors s
  | file node => exact extends_processFile env (joinP dir node.name) node s
  | dir name readOk es =>
    unfold walkEntry
    dsimp only
    repeat' split
    all_goals try dsimp only
    all_goals
      first
      | exact stateExtends_refl _
      | exact extends_checkAbort _ _
      | exact stateExtends_trans (extends_checkAbort _ _) (extends_incErrors _)
      | exact stateExtends_trans (extends_checkAbort _ _) (extends_walkEntries _ _ _ _)

theorem extends_walkEntries (env : Env) (dir : String) (es : Entries) (s : ScanState) :
    StateExtends s (walkEntries env dir es s).2 := by
  cases es with
  | nil => exact stateExtends_refl s
  | cons e rest =>
    unfold walkEntries
    dsimp only
    split
    · dsimp only
      exact extends_checkAbort _ _
    · have he := extends_walkEntry env dir e (checkAbort env s).2
      rcases hstep : walkEntry env dir e (checkAbort env s).2 with ⟨r, s2⟩
      rw [hstep] at he
      dsimp only at he
      cases r with
      | ok u =>
        exact stateExtends_trans (extends_checkAbort _ _)
          (stateExtends_trans he (extends_walkEntries _ _ _ _))
      | error u =>
        exact stateExtends_trans (extends_checkAbort _ _) he
end

theorem extends_walk (env : Env) (dir : String) (readOk : Bool) (es : Entries) (s : ScanState) :
    StateExtends s (walk env dir readOk es s).2 := by
  unfold walk
  dsimp only
  repeat' split
  all_goals try dsimp only
  all_goals
    first
    | exact extends_checkAbort _ _
    | exact stateExtends_trans (extends_checkAbort _ _) (extends_incErrors _)
    | exact stateExtends_trans (extends_checkAbort _ _) (extends_walkEntries _ _ _ _)

theorem extends_scanDirectory (env : Env) (dir : String) (readOk : Bool) (es : Entries)
    (s : ScanState) : StateExtends s (scanDirectory env dir readOk es s) :=
  extends_walk env dir readOk es s

/-! ## C3: size-tiered fingerprinting -/

theorem keepValid_valid {v : Option ExifDate} {d : ExifDate}
    (h : keepValid v = some (.exif d)) : d.parses = true ∧ 1970 ≤ d.year := by
  cases v with
  | none => simp [keepValid] at h
  | some e =>
    simp only [keepValid] at h
    split at h
    · next hc =>
      rw [Option.some_inj] at h
      injection h with h'
      subst h'
      simpa using hc
    · exact absurd h (by simp)

/-- C3: `calculateHash` digests the full content when the stat size is at most
50 MB; above the threshold it digests the surrogate built from the exact byte
size, the modification time, and the first 16 KiB of content; and it is
deterministic — identical bytes, size and mtime yield the identical
fingerprint string. -/
theorem calculateHash_size_tiered (digest : List Nat → String) (content : List Nat)
    (st st2 : Stat) :
    (st.size ≤ FILE_SIZE_THRESHOLD → calculateHash digest content st = digest content) ∧
    (FILE_SIZE_THRESHOLD < st.size → st.size = content.length →
      calculateHash digest content st =
        digest (strBytes (toString st.size) ++ strBytes (toString st.mtime.ms) ++
          content.take (16 * 1024))) ∧
    (st2.size = st.size → st2.mtime = st.mtime →
      calculateHash digest content st2 = calculateHash digest content st) := by
  refine ⟨?_, ?_, ?_⟩
  · intro hle
    rw [calculateHash, if_neg (by omega)]
  · intro hlt hlen
    rw [calculateHash, if_pos (by omega)]
    have hth : FILE_SIZE_THRESHOLD = 52428800 := rfl
    have h16 : (content.take (16 * 1024)).length = 16 * 1024 := by
      rw [List.length_take]
      omega
    rw [readLeadingChunk, h16]
    simp
  · intro hs hm
    unfold calculateHash
    rw [hs, hm]

/-- Witness for `calculateHash_size_tiered`: the small branch at a 100-byte
file, and the large branch at a file one byte above the threshold. -/
theorem calculateHash_size_tiered_witness :
    (calculateHash dgW [1, 2, 3] statW = dgW [1, 2, 3]) ∧
    (calculateHash dgW (List.replicate (FILE_SIZE_THRESHOLD + 1) 0) statBigW =
      dgW (strBytes (toString statBigW.size) ++ strBytes (toString statBigW.mtime.ms) ++
        (List.replicate (FILE_SIZE_THRESHOLD + 1) 0).take (16 * 1024))) := by
  constructor
  · exact (calculateHash_size_tiered dgW [1, 2, 3] statW statW).1 (by decide)
  · exact (calculateHash_size_tiered dgW (List.replicate (FILE_SIZE_THRESHOLD + 1) 0)
      statBigW statBigW).2.1 (by decide) (by simp [statBigW])

/-! ## C5: image date sanitization -/

/-- C5: every embedded date surviving sanitization parses and has year at
least 1970 (a field that fails either check is discarded); when no valid date
survives, the result carries the file's mtime as modify date, its birthtime
(when that year is at least 1970, otherwise the mtime again) as create date,
and the explicit `fallback = true` marker; when a valid date survives no
fallback marker is set; and an outright extractor failure yields the
mtime-based fallback object carrying the error message. -/
theorem image_date_sanitization (rawOpt : Option RawImgMeta) (st : Stat) (msg : String) :
    (∀ d, ((sanitizeImageMeta rawOpt st).ModifyDate = some (.exif d) ∨
           (sanitizeImageMeta rawOpt st).DateTimeOriginal = some (.exif d) ∨
           (sanitizeImageMeta rawOpt st).CreateDate = some (.exif d) ∨
           (sanitizeImageMeta rawOpt st).modify_date = some (.exif d) ∨
           (sanitizeImageMeta rawOpt st).date_time_original = some (.exif d) ∨
           (sanitizeImageMeta rawOpt st).create_date = some (.exif d)) →
          d.parses = true ∧ 1970 ≤ d.year) ∧
    (hasValidDate (rawOpt.getD emptyRawImgMeta) = false →
      (sanitizeImageMeta rawOpt st).fallback = true ∧
      (sanitizeImageMeta rawOpt st).ModifyDate = some (.fsTime st.mtime) ∧
      (sanitizeImageMeta rawOpt st).modify_date = some (.fsTime st.mtime) ∧
      (sanitizeImageMeta rawOpt st).CreateDate =
        some (if 1970 ≤ st.birthtime.year then MetaDate.fsTime st.birthtime
              else MetaDate.fsTime st.mtime) ∧
      (sanitizeImageMeta rawOpt st).create_date =
        some (if 1970 ≤ st.birthtime.year then MetaDate.fsTime st.birthtime
              else MetaDate.fsTime st.mtime)) ∧
    (hasValidDate (rawOpt.getD emptyRawImgMeta) = true →
      (sanitizeImageMeta rawOpt st).fallback = false) ∧
    ((extractImageMeta (.error msg) st).fallback = true ∧
     (extractImageMeta (.error msg) st).ModifyDate = some (.fsTime st.mtime) ∧
     (extractImageMeta (.error msg) st).modify_date = some (.fsTime st.mtime) ∧
     (extractImageMeta (.error msg) st).error = some msg) := by
  refine ⟨?_, ?_, ?_, ?_⟩
  · intro d hd
    by_cases hv : hasValidDate (rawOpt.getD emptyRawImgMeta) = true
    · rw [sanitizeImageMeta] at hd
      simp only [hv, if_true] at hd
      rcases hd with h | h | h | h | h | h <;> exact keepValid_valid h
    · rw [sanitizeImageMeta] at hd
      simp only [Bool.not_eq_true] at hv
      simp only [hv, Bool.false_eq_true, if_false, injectDates] at hd
      rcases hd with h | h | h | h | h | h
      · simp at h
      · exact keepValid_valid h
      · split at h <;> simp at h
      · simp at h
      · exact keepValid_valid h
      · split at h <;> simp at h
  · intro hv
    simp [sanitizeImageMeta, hv, injectDates]
  · intro hv
    rw [sanitizeImageMeta]
    simp only [hv, if_true]
  · exact ⟨rfl, rfl, rfl, rfl⟩

/-- Witness for `image_date_sanitization`: an image whose only embedded date
has year 1901 ends with `fallback = true`, the file mtime as its modify date,
and the 1901 value gone. -/
theorem image_date_sanitization_witness :
    (sanitizeImageMeta (some raw1901W) statW).fallback = true ∧
    (sanitizeImageMeta (some raw1901W) statW).ModifyDate = some (.fsTime statW.mtime) ∧
    (sanitizeImageMeta (some raw1901W) statW).DateTimeOriginal = none := by
  have h := image_date_sanitization (some raw1901W) statW ""
  exact ⟨(h.2.1 (by decide)).1, (h.2.1 (by decide)).2.1, by decide⟩

/-! ## C9: junk-image pre-filter -/

/-- C9: an image whose dimension probe succeeds with both width and height
under 400 px (undefined dimensions default to 0), at a path with no existing
record, is counted as skipped and processing stops — the returned state is
exactly the input state with `skipped` incremented (and the cancellation
clock ticked): the store, the thumbnail table, the action trace (so no
fingerprint is computed), and the `added` and `errors` counters are untouched. -/
theorem junk_image_skipped (env : Env) (filePath : String) (node : FileNode) (s : ScanState)
    (st : Stat) (m : SharpMeta)
    (hnc : env.cancelAt = none)
    (hfresh : pathIn s.db filePath = false)
    (hstat : node.stat = .ok st)
    (himg : getFileType node.ext = .image)
    (hprobe : node.imageEv.probe = .ok m)
    (hw : m.width.getD 0 < 400) (hh : m.height.getD 0 < 400) :
    processFile env filePath node s =
      (.ok (), incSkipped { s with clock := s.clock + 1 }) := by
  have hjunk : junkImage FileType.image node.imageEv = true := by
    rw [junkImage, hprobe]
    simp [hw, hh]
  rw [processFile]
  simp only [checkAbort, hnc, abortedAt, Bool.false_eq_true, if_false]
  rw [hstat]
  simp only [hfresh, Bool.false_eq_true, if_false, himg, hjunk, if_true]
  simp

/-- Witness for `junk_image_skipped`: a 20 by 20 icon is skipped untouched. -/
theorem junk_image_skipped_witness :
    processFile envW "r/icon.png"
      { nodeImgW with name := "icon.png", ext := ".png",
                      imageEv := { imgEvW with probe := .ok { width := some 20, height := some 20 } } }
      (initState [] [] 1) =
      (.ok (), incSkipped { initState [] [] 1 with clock := 1 }) := by
  exact junk_image_skipped envW "r/icon.png" _ (initState [] [] 1) statW
    { width := some 20, height := some 20 } rfl rfl rfl rfl rfl (by decide) (by decide)

/-! ## C10: a failing dimension probe bypasses the junk filter -/

theorem imageMetaStage_congr (st : Stat) (mid : Nat) (e1 e2 : ImageEvents)
    (hex : e1.exif = e2.exif) (hmu : e1.metaUpdateOk = e2.metaUpdateOk) (s : ScanState) :
    imageMetaStage e1 st mid s = imageMetaStage e2 st mid s := by
  unfold imageMetaStage
  rw [hex, hmu]

/-- The thumbnail stage reads nothing of an image file's events but
`thumbOk`. -/
theorem thumbStage_imageEv (env : Env) (fp : String) (node : FileNode) (t : FileType)
    (mid : Nat) (s : ScanState) (e1 e2 : ImageEvents) (hth : e1.thumbOk = e2.thumbOk) :
    thumbStage env fp { node with imageEv := e1 } t mid s
      = thumbStage env fp { node with imageEv := e2 } t mid s := by
  unfold thumbStage
  cases t <;> simp [hth]

/-- The metadata stage reads nothing of an image file's events but `exif`
and `metaUpdateOk`. -/
theorem metaStage_imageEv (env : Env) (node : FileNode) (t : FileType) (st : Stat)
    (mid : Nat) (s1 : ScanState) (e1 e2 : ImageEvents)
    (hex : e1.exif = e2.exif) (hmu : e1.metaUpdateOk = e2.metaUpdateOk) :
    metaStage env { node with imageEv := e1 } t st mid s1
      = metaStage env { node with imageEv := e2 } t st mid s1 := by
  unfold metaStage
  dsimp only
  cases t <;> simp [imageMetaStage_congr st mid e1 e2 hex hmu]

/-- Enrichment reads nothing of an image file's events but `thumbOk`, `exif`
and `metaUpdateOk`. -/
theorem processEnrich_imageEv (env : Env) (fp : String) (node : FileNode) (t : FileType)
    (st : Stat) (mid : Nat) (s : ScanState) (e1 e2 : ImageEvents)
    (hth : e1.thumbOk = e2.thumbOk) (hex : e1.exif = e2.exif)
    (hmu : e1.metaUpdateOk = e2.metaUpdateOk) :
    processEnrich env fp { node with imageEv := e1 } t st mid s
      = processEnrich env fp { node with imageEv := e2 } t st mid s := by
  unfold processEnrich
  rw [thumbStage_imageEv env fp node t mid s e1 e2 hth]
  rcases hstep : thumbStage env fp { node with imageEv := e2 } t mid s with ⟨r, s1⟩
  cases r with
  | error e => rfl
  | ok u =>
    dsimp only
    exact metaStage_imageEv env node t st mid s1 e1 e2 hex hmu

/-- The insert-and-enrich tail reads nothing of an image file's events but
`thumbOk`, `exif` and `metaUpdateOk`. -/
theorem processInsert_imageEv (env : Env) (fp : String) (node : FileNode) (t : FileType)
    (st : Stat) (s : ScanState) (e1 e2 : ImageEvents)
    (hth : e1.thumbOk = e2.thumbOk) (hex : e1.exif = e2.exif)
    (hmu : e1.metaUpdateOk = e2.metaUpdateOk) :
    processInsert env fp { node with imageEv := e1 } t st s
      = processInsert env fp { node with imageEv := e2 } t st s := by
  unfold processInsert
  dsimp only
  rw [processEnrich_imageEv env fp node t st _ _ e1 e2 hth hex hmu]

/-- C10: when the dimension probe itself fails, the junk filter is bypassed
rather than the file being skipped or counted as an error: processing is
identical, state for state, to processing the same file with a probe that
reports filter-passing dimensions — the file proceeds to fingerprinting,
insertion and thumbnailing like any other image. -/
theorem probe_failure_bypasses_filter (env : Env) (filePath : String) (node : FileNode)
    (s : ScanState) (msg : String) (m : SharpMeta)
    (hm : ¬(m.width.getD 0 < 400 ∧ m.height.getD 0 < 400)) :
    processFile env filePath { node with imageEv := { node.imageEv with probe := .error msg } } s
      = processFile env filePath { node with imageEv := { node.imageEv with probe := .ok m } } s := by
  have h1 : ∀ t, junkImage t { node.imageEv with probe := .error msg } = false := by
    intro t
    simp [junkImage]
  have h2 : ∀ t, junkImage t { node.imageEv with probe := .ok m } = false := by
    intro t
    rw [junkImage]
    rcases Decidable.not_and_iff_or_not.mp hm with h | h <;> simp [h]
  cases hstat : node.stat with
  | error e =>
    rw [processFile, processFile]
  | ok st =>
    rw [processFile, processFile]
    dsimp only
    simp only [h1, h2]
    rw [← hstat]
    rw [processInsert_imageEv env filePath node (getFileType node.ext) st _
      { node.imageEv with probe := .error msg } { node.imageEv with probe := .ok m } rfl rfl rfl]

/-- Witness for `probe_failure_bypasses_filter`: an image whose probe throws
is processed exactly like one probed at 800 by 600. -/
theorem probe_failure_bypasses_filter_witness :
    processFile envW "r/p.jpg"
      { nodeImgW with imageEv := { imgEvW with probe := .error "unsupported" } }
      (initState [] [] 1)
    = processFile envW "r/p.jpg"
      { nodeImgW with imageEv := { imgEvW with probe := .ok { width := some 800, height := some 600 } } }
      (initState [] [] 1) :=
  probe_failure_bypasses_filter envW "r/p.jpg" nodeImgW (initState [] [] 1) "unsupported"
    { width := some 800, height := some 600 } (by decide)

/-! ## C7: the duplicate query -/

theorem lexLe_total (a b : List Nat) : lexLe a b = true ∨ lexLe b a = true := by
  induction a generalizing b with
  | nil => left; rfl
  | cons x xs ih =>
    cases b with
    | nil => right; rfl
    | cons y ys =>
      by_cases h1 : x < y
      · left; simp [lexLe, h1]
      · by_cases h2 : y < x
        · right; simp [lexLe, h2]
        · rcases ih ys with h | h
          · left; simp [lexLe, h1, h2, h]
          · right; simp [lexLe, h1, h2, h]

theorem lexLe_trans {a b c : List Nat} (h1 : lexLe a b = true) (h2 : lexLe b c = true) :
    lexLe a c = true := by
  induction a generalizing b c with
  | nil => rfl
  | cons x xs ih =>
    cases b with
    | nil => simp [lexLe] at h1
    | cons y ys =>
      cases c with
      | nil => simp [lexLe] at h2
      | cons z zs =>
        simp only [lexLe] at h1 h2 ⊢
        split_ifs at h1 h2 ⊢ <;>
          first
          | rfl
          | omega
          | exact ih h1 h2
          | simp_all

theorem hashLe_total (a b : Option String) : hashLe a b = true ∨ hashLe b a = true := by
  cases a <;> cases b <;> simp [hashLe, strLeB] <;> exact lexLe_total _ _

theorem hashLe_trans {a b c : Option String} (h1 : hashLe a b = true) (h2 : hashLe b c = true) :
    hashLe a c = true := by
  cases a <;> cases b <;> cases c <;> simp_all [hashLe, strLeB]
  exact lexLe_trans h1 h2

instance : IsTotal MediaRecord hashOrd := ⟨fun a b => hashLe_total a.hash b.hash⟩

instance : IsTrans MediaRecord hashOrd := ⟨fun _ _ _ => hashLe_trans⟩

theorem mem_dupHashes_iff (db : List MediaRecord) (h : String) :
    (h ∈ (((db.map (·.hash)).dedup).filter
        (fun o => 1 < db.countP (fun r => r.hash == o))).filterMap id) ↔
      (some h ∈ db.map (·.hash) ∧ 1 < db.countP (fun r => r.hash == some h)) := by
  simp [List.mem_filterMap, List.mem_filter, List.mem_dedup]

/-- C7: `getDuplicates` returns exactly the records whose fingerprint occurs
on more than one record (so records with a unique fingerprint are never
included), ordered by fingerprint so equal fingerprints are contiguous, and
returns the empty list when no fingerprint repeats. -/
theorem getDuplicates_spec (db : List MediaRecord) (hnn : ∀ r ∈ db, r.hash ≠ none) :
    (∀ r, r ∈ getDuplicates db ↔ r ∈ db ∧ 1 < db.countP (fun q => q.hash == r.hash)) ∧
    List.Sorted hashOrd (getDuplicates db) ∧
    ((∀ r ∈ db, db.countP (fun q => q.hash == r.hash) ≤ 1) → getDuplicates db = []) := by
  refine ⟨?_, ?_, ?_⟩
  · intro r
    rw [getDuplicates]
    by_cases he : ((((db.map (·.hash)).dedup).filter
        (fun o => 1 < db.countP (fun q => q.hash == o))).filterMap id).isEmpty
    · rw [if_pos he]
      simp only [List.not_mem_nil, false_iff]
      rintro ⟨hrdb, hcnt⟩
      obtain ⟨h, hsome⟩ := Option.ne_none_iff_exists'.mp (hnn r hrdb)
      have hmem : h ∈ (((db.map (·.hash)).dedup).filter
          (fun o => 1 < db.countP (fun q => q.hash == o))).filterMap id := by
        rw [mem_dupHashes_iff]
        constructor
        · exact List.mem_map.mpr ⟨r, hrdb, hsome⟩
        · rw [← hsome]; exact hcnt
      rw [List.isEmpty_iff] at he
      rw [he] at hmem
      exact absurd hmem (List.not_mem_nil h)
    · rw [if_neg he]
      rw [(List.perm_insertionSort hashOrd _).mem_iff, List.mem_filter]
      constructor
      · rintro ⟨hrdb, hany⟩
        refine ⟨hrdb, ?_⟩
        obtain ⟨h, hin, heq⟩ := List.any_eq_true.mp hany
        rw [beq_iff_eq] at heq
        rw [heq]
        exact ((mem_dupHashes_iff db h).mp hin).2
      · rintro ⟨hrdb, hcnt⟩
        refine ⟨hrdb, ?_⟩
        obtain ⟨h, hsome⟩ := Option.ne_none_iff_exists'.mp (hnn r hrdb)
        refine List.any_eq_true.mpr ⟨h, ?_, by rw [beq_iff_eq]; exact hsome⟩
        rw [mem_dupHashes_iff]
        refine ⟨List.mem_map.mpr ⟨r, hrdb, hsome⟩, ?_⟩
        rw [← hsome]
        exact hcnt
  · rw [getDuplicates]
    split
    · exact List.sorted_nil
    · exact List.sorted_insertionSort hashOrd _
  · intro hone
    rw [getDuplicates]
    have hnilf : (((db.map (·.hash)).dedup).filter
        (fun o => 1 < db.countP (fun q => q.hash == o))) = [] := by
      rw [List.filter_eq_nil_iff]
      intro o ho
      rw [List.mem_dedup] at ho
      obtain ⟨q, hq, hoq⟩ := List.mem_map.mp ho
      simp only [decide_eq_true_eq, not_lt]
      rw [← hoq]
      exact hone q hq
    rw [hnilf]
    rfl

/-- Witness for `getDuplicates_spec`: of three records two share fingerprint
"zz" and are returned; the unique "aa" record is omitted. -/
theorem getDuplicates_spec_witness :
    mkRecW 1 "a" "zz" ∈ getDuplicates dbDupW ∧ mkRecW 2 "b" "aa" ∉ getDuplicates dbDupW := by
  have h := getDuplicates_spec dbDupW (by decide)
  refine ⟨(h.1 _).mpr (by decide), fun hm => ?_⟩
  have h2 := (h.1 _).mp hm
  revert h2
  decide

/-! ## Stage characterization: enrichment stages touch only the store body,
thumbnails, trace and clock — never the counters, the row set, or `nextId` -/

structure StageTame (s s' : ScanState) : Prop where
  added : s'.added = s.added
  skipped : s'.skipped = s.skipped
  errors : s'.errors = s.errors
  paths : pathsOf s'.db = pathsOf s.db
  nextId : s'.nextId = s.nextId

theorem stageTame_refl (s : ScanState) : StageTame s s := ⟨rfl, rfl, rfl, rfl, rfl⟩

theorem stageTame_trans {a b c : ScanState} (h1 : StageTame a b) (h2 : StageTame b c) :
    StageTame a c :=
  ⟨h2.added.trans h1.added, h2.skipped.trans h1.skipped, h2.errors.trans h1.errors,
    h2.paths.trans h1.paths, h2.nextId.trans h1.nextId⟩

theorem tame_checkAbort (env : Env) (s : ScanState) : StageTame s (checkAbort env s).2 :=
  ⟨rfl, rfl, rfl, rfl, rfl⟩

theorem tame_pushTrace (s : ScanState) (a : ScanAction) : StageTame s (pushTrace s a) :=
  ⟨rfl, rfl, rfl, rfl, rfl⟩

theorem tame_insertThumb (s : ScanState) (mid : Nat) (src : ThumbSource) :
    StageTame s (insertThumb s mid src) :=
  ⟨rfl, rfl, rfl, rfl, rfl⟩

theorem tame_updateMeta (s : ScanState) (i : Nat) (m : MetaJson) :
    StageTame s { s with db := updateMeta s.db i m } :=
  ⟨rfl, rfl, rfl, pathsOf_updateMeta s.db i m, rfl⟩

theorem tame_audioGeneric (ev : AudioEvents) (mid : Nat) (s : ScanState) :
    StageTame s (audioGeneric ev mid s) := by
  unfold audioGeneric
  split
  · exact tame_insertThumb s mid .generic
  · exact stageTame_refl s

theorem tame_videoThumb (env : Env) (ev : VideoEvents) (mid : Nat) (s : ScanState) :
    StageTame s (videoThumb env ev mid s).2 := by
  unfold videoThumb
  dsimp only
  repeat' split
  all_goals try dsimp only
  all_goals
    first
    | exact stageTame_refl _
    | exact tame_checkAbort _ _
    | exact stageTame_trans (tame_checkAbort _ _) (tame_insertThumb _ _ _)

theorem tame_audioStage (env : Env) (fp : String) (ev : AudioEvents) (mid : Nat)
    (s : ScanState) : StageTame s (audioStage env fp ev mid s) := by
  unfold audioStage
  dsimp only
  repeat' split
  all_goals try dsimp only
  all_goals
    first
    | exact stageTame_refl _
    | exact stageTame_trans (tame_updateMeta _ _ _) (tame_insertThumb _ _ _)
    | exact stageTame_trans (tame_updateMeta _ _ _)
        (stageTame_trans (tame_pushTrace _ _) (tame_checkAbort _ _))
    | exact stageTame_trans (tame_updateMeta _ _ _)
        (stageTame_trans (tame_pushTrace _ _)
          (stageTame_trans (tame_checkAbort _ _) (tame_insertThumb _ _ _)))
    | exact stageTame_trans (tame_updateMeta _ _ _)
        (stageTame_trans (tame_pushTrace _ _)
          (stageTame_trans (tame_checkAbort _ _) (tame_audioGeneric _ _ _)))
    | exact stageTame_trans (tame_updateMeta _ _ _)
        (stageTame_trans (tame_pushTrace _ _) (tame_audioGeneric _ _ _))

theorem tame_imageMetaStage (ev : ImageEvents) (st : Stat) (mid : Nat) (s : ScanState) :
    StageTame s (imageMetaStage ev st mid s) := by
  unfold imageMetaStage
  split
  · exact tame_updateMeta _ _ _
  · exact stageTame_refl s

theorem tame_thumbStage (env : Env) (fp : String) (node : FileNode) (t : FileType)
    (mid : Nat) (s : ScanState) : StageTame s (thumbStage env fp node t mid s).2 := by
  unfold thumbStage
  repeat' split
  all_goals
    first
    | exact stageTame_refl _
    | exact tame_insertThumb _ _ _
    | exact tame_videoThumb _ _ _ _
    | exact tame_audioStage _ _ _ _ _

/-! ## Characterizing enrichment and insert outcomes -/

/-- Counters-and-rows view preserved by enrichment: `skipped`, the row
(filepath) sequence of the store, and `nextId`. -/
structure KeepSPN (s s' : ScanState) : Prop where
  skipped : s'.skipped = s.skipped
  paths : pathsOf s'.db = pathsOf s.db
  nextId : s'.nextId = s.nextId

theorem keepSPN_refl (s : ScanState) : KeepSPN s s := ⟨rfl, rfl, rfl⟩

theorem keepSPN_trans {a b c : ScanState} (h1 : KeepSPN a b) (h2 : KeepSPN b c) : KeepSPN a c :=
  ⟨h2.skipped.trans h1.skipped, h2.paths.trans h1.paths, h2.nextId.trans h1.nextId⟩

theorem stageTame_spn {s s' : ScanState} (h : StageTame s s') : KeepSPN s s' :=
  ⟨h.skipped, h.paths, h.nextId⟩

theorem spn_incAdded (s : ScanState) : KeepSPN s (incAdded s) := ⟨rfl, rfl, rfl⟩

theorem spn_incErrors (s : ScanState) : KeepSPN s (incErrors s) := ⟨rfl, rfl, rfl⟩

/-- Enrichment never touches `skipped`, the row set, or `nextId`, whatever
the outcome. -/
theorem metaStage_spn (env : Env) (node : FileNode) (t : FileType) (st : Stat)
    (mid : Nat) (s1 : ScanState) : KeepSPN s1 (metaStage env node t st mid s1).2 := by
  unfold metaStage
  dsimp only
  repeat' split
  all_goals try dsimp only
  all_goals
    first
    | exact stageTame_spn (tame_checkAbort _ _)
    | exact keepSPN_trans (stageTame_spn (tame_checkAbort _ _)) (spn_incAdded _)
    | exact keepSPN_trans (stageTame_spn (tame_checkAbort _ _)) (spn_incErrors _)
    | exact keepSPN_trans (stageTame_spn (tame_checkAbort _ _))
        (keepSPN_trans (stageTame_spn (tame_imageMetaStage _ _ _ _)) (spn_incAdded _))
    | exact keepSPN_trans (stageTame_spn (tame_checkAbort _ _))
        (keepSPN_trans (stageTame_spn (tame_updateMeta _ _ _)) (spn_incAdded _))

theorem processEnrich_spn (env : Env) (fp : String) (node : FileNode) (t : FileType)
    (st : Stat) (mid : Nat) (s : ScanState) :
    KeepSPN s (processEnrich env fp node t st mid s).2 := by
  unfold processEnrich
  have hts := stageTame_spn (tame_thumbStage env fp node t mid s)
  rcases hstep : thumbStage env fp node t mid s with ⟨r, s1⟩
  rw [hstep] at hts
  dsimp only at hts
  cases r with
  | error e => exact hts
  | ok u => exact keepSPN_trans hts (metaStage_spn _ _ _ _ _ _)

/-- Enrichment leaves `errors` untouched unless the file is a video whose
metadata update throws. -/
theorem metaStage_errors (env : Env) (node : FileNode) (t : FileType) (st : Stat)
    (mid : Nat) (s1 : ScanState)
    (hv : t = .video → node.videoEv.metaUpdateOk = true) :
    (metaStage env node t st mid s1).2.errors = s1.errors := by
  unfold metaStage
  dsimp only
  repeat' split
  all_goals try dsimp only
  all_goals
    first
    | rfl
    | exact (stageTame_trans (tame_checkAbort _ _) (tame_imageMetaStage _ _ _ _)).errors
    | exact absurd (hv rfl) (by assumption)

theorem processEnrich_errors (env : Env) (fp : String) (node : FileNode) (t : FileType)
    (st : Stat) (mid : Nat) (s : ScanState)
    (hv : t = .video → node.videoEv.metaUpdateOk = true) :
    (processEnrich env fp node t st mid s).2.errors = s.errors := by
  unfold processEnrich
  have hts := tame_thumbStage env fp node t mid s
  rcases hstep : thumbStage env fp node t mid s with ⟨r, s1⟩
  rw [hstep] at hts
  dsimp only at hts
  cases r with
  | error e => exact hts.errors
  | ok u =>
    rw [metaStage_errors env node t st mid s1 hv]
    exact hts.errors

theorem videoThumb_none (env : Env) (ev : VideoEvents) (mid : Nat) (s : ScanState)
    (hnc : env.cancelAt = none) : (videoThumb env ev mid s).1 = .ok () := by
  unfold videoThumb
  dsimp only
  simp only [checkAbort, hnc, abortedAt, Bool.false_eq_true, if_false]
  repeat' split
  all_goals rfl

theorem thumbStage_none (env : Env) (fp : String) (node : FileNode) (t : FileType)
    (mid : Nat) (s : ScanState) (hnc : env.cancelAt = none) :
    (thumbStage env fp node t mid s).1 = .ok () := by
  unfold thumbStage
  cases t <;> first | rfl | exact videoThumb_none _ _ _ _ hnc

theorem checkAbort_none (env : Env) (s : ScanState) (hnc : env.cancelAt = none) :
    (checkAbort env s).1 = false := by
  simp [checkAbort, hnc, abortedAt]

/-- With no cancellation `metaStage` returns normally; it bumps `added`
(leaving `errors` alone) in every case except a video whose metadata update
throws, which bumps `errors` and leaves `added` alone. -/
theorem metaStage_none (env : Env) (node : FileNode) (t : FileType) (st : Stat)
    (mid : Nat) (s1 : ScanState) (hnc : env.cancelAt = none) :
    (metaStage env node t st mid s1).1 = .ok () ∧
    ((t = .video ∧ node.videoEv.metaUpdateOk = false) →
      (metaStage env node t st mid s1).2.added = s1.added ∧
      (metaStage env node t st mid s1).2.errors = s1.errors + 1) ∧
    (¬(t = .video ∧ node.videoEv.metaUpdateOk = false) →
      (metaStage env node t st mid s1).2.added = s1.added + 1 ∧
      (metaStage env node t st mid s1).2.errors = s1.errors) := by
  unfold metaStage
  dsimp only
  have hab := checkAbort_none env s1 hnc
  simp only [hab, Bool.false_eq_true, if_false]
  cases t with
  | image =>
    refine ⟨by first | rfl | trivial, fun hcon => absurd hcon.1 (by simp), fun _ => ⟨?_, ?_⟩⟩
    · show (imageMetaStage node.imageEv st mid (checkAbort env s1).2).added + 1 = s1.added + 1
      rw [(tame_imageMetaStage node.imageEv st mid (checkAbort env s1).2).added]
      rfl
    · show (imageMetaStage node.imageEv st mid (checkAbort env s1).2).errors = s1.errors
      rw [(tame_imageMetaStage node.imageEv st mid (checkAbort env s1).2).errors]
      rfl
  | video =>
    by_cases hmu : node.videoEv.metaUpdateOk = true
    · simp only [hmu, if_true]
      refine ⟨by first | rfl | trivial, fun hcon => absurd hcon.2 (by simp [hmu]),
        fun _ => ⟨rfl, rfl⟩⟩
    · rw [Bool.not_eq_true] at hmu
      simp only [hmu, Bool.false_eq_true, if_false]
      exact ⟨by first | rfl | trivial, fun _ => ⟨rfl, rfl⟩,
        fun hcon => absurd (by simp [hmu]) hcon⟩
  | audio =>
    exact ⟨by first | rfl | trivial, fun hcon => absurd hcon.1 (by simp), fun _ => ⟨rfl, rfl⟩⟩
  | document =>
    exact ⟨by first | rfl | trivial, fun hcon => absurd hcon.1 (by simp), fun _ => ⟨rfl, rfl⟩⟩
  | project =>
    exact ⟨by first | rfl | trivial, fun hcon => absurd hcon.1 (by simp), fun _ => ⟨rfl, rfl⟩⟩
  | unknown =>
    exact ⟨by first | rfl | trivial, fun hcon => absurd hcon.1 (by simp), fun _ => ⟨rfl, rfl⟩⟩

/-- With no cancellation, enrichment always returns normally; it bumps
`added` (leaving `errors` alone) in every case except a video whose metadata
update throws, which bumps `errors` and leaves `added` alone. -/
theorem processEnrich_none (env : Env) (fp : String) (node : FileNode) (t : FileType)
    (st : Stat) (mid : Nat) (s : ScanState) (hnc : env.cancelAt = none) :
    (processEnrich env fp node t st mid s).1 = .ok () ∧
    ((t = .video ∧ node.videoEv.metaUpdateOk = false) →
      (processEnrich env fp node t st mid s).2.added = s.added ∧
      (processEnrich env fp node t st mid s).2.errors = s.errors + 1) ∧
    (¬(t = .video ∧ node.videoEv.metaUpdateOk = false) →
      (processEnrich env fp node t st mid s).2.added = s.added + 1 ∧
      (processEnrich env fp node t st mid s).2.errors = s.errors) := by
  unfold processEnrich
  have hok := thumbStage_none env fp node t mid s hnc
  have hts := tame_thumbStage env fp node t mid s
  rcases hstep : thumbStage env fp node t mid s with ⟨r, s1⟩
  rw [hstep] at hok hts
  dsimp only at hok hts
  cases r with
  | error e => exact absurd hok (by simp)
  | ok u =>
    obtain ⟨m1, m2, m3⟩ := metaStage_none env node t st mid s1 hnc
    refine ⟨m1, fun hcon => ?_, fun hcon => ?_⟩
    · obtain ⟨ha, he⟩ := m2 hcon
      rw [ha, he, hts.added, hts.errors]
      exact ⟨rfl, rfl⟩
    · obtain ⟨ha, he⟩ := m3 hcon
      rw [ha, he, hts.added, hts.errors]
      exact ⟨rfl, rfl⟩

/-- The placeholder insert appends exactly one row for the processed path,
whatever the later outcome (no rollback even under cancellation). -/
theorem processInsert_paths (env : Env) (fp : String) (node : FileNode) (t : FileType)
    (st : Stat) (s : ScanState) :
    pathsOf (processInsert env fp node t st s).2.db = pathsOf s.db ++ [fp] := by
  unfold processInsert
  dsimp only
  split
  · simp [pathsOf, pushTrace, checkAbort]
  · rw [(processEnrich_spn env fp node t st _ _).paths]
    simp [pathsOf, pushTrace, checkAbort]

/-- With no cancellation, `processInsert` returns normally, never touches
`skipped`, allocates one id, and settles `added`/`errors` as enrichment
does. -/
theorem processInsert_none (env : Env) (fp : String) (node : FileNode) (t : FileType)
    (st : Stat) (s : ScanState) (hnc : env.cancelAt = none) :
    (processInsert env fp node t st s).1 = .ok () ∧
    (processInsert env fp node t st s).2.skipped = s.skipped ∧
    (processInsert env fp node t st s).2.nextId = s.nextId + 1 ∧
    ((t = .video ∧ node.videoEv.metaUpdateOk = false) →
      (processInsert env fp node t st s).2.added = s.added ∧
      (processInsert env fp node t st s).2.errors = s.errors + 1) ∧
    (¬(t = .video ∧ node.videoEv.metaUpdateOk = false) →
      (processInsert env fp node t st s).2.added = s.added + 1 ∧
      (processInsert env fp node t st s).2.errors = s.errors) := by
  have hca : ∀ s' : ScanState, (checkAbort env s').1 = false :=
    fun s' => checkAbort_none env s' hnc
  unfold processInsert
  dsimp only
  simp only [hca, Bool.false_eq_true, if_false]
  set s1 : ScanState := (checkAbort env
    { pushTrace s (ScanAction.fingerprint fp) with
      db := (pushTrace s (ScanAction.fingerprint fp)).db ++
        [{ id := (pushTrace s (ScanAction.fingerprint fp)).nextId, filepath := fp,
           filename := node.name, type := t, size := st.size, createdAt := st.birthtime.ms,
           hash := some (calculateHash env.digest node.content st),
           metadata := MetaJson.placeholder }]
      nextId := (pushTrace s (ScanAction.fingerprint fp)).nextId + 1 }).2 with hs1
  obtain ⟨he1, he2, he3⟩ := processEnrich_none env fp node t st
    (pushTrace s (ScanAction.fingerprint fp)).nextId s1 hnc
  have hsp := processEnrich_spn env fp node t st
    (pushTrace s (ScanAction.fingerprint fp)).nextId s1
  refine ⟨he1, ?_, ?_, ?_, ?_⟩
  · rw [hsp.skipped]
    exact rfl
  · rw [hsp.nextId]
    exact rfl
  · intro hcon
    obtain ⟨ha, he⟩ := he2 hcon
    exact ⟨ha, he⟩
  · intro hcon
    obtain ⟨ha, he⟩ := he3 hcon
    exact ⟨ha, he⟩

/-! ## C2: enrichment failures after the placeholder insert -/

/-- C2 counterexample: a video file whose metadata `update ... run()` throws.
The placeholder insert succeeded (the record is in the store), yet the scan
counts an error and does not count the file as added — the failure of this
one persistence step is not caught by the enrichment stage. -/
theorem video_meta_update_failure_counts_error :
    (processFile envW "r/v.mp4" nodeVidBadW (initState [] [] 1)).2.added = 0 ∧
    (processFile envW "r/v.mp4" nodeVidBadW (initState [] [] 1)).2.errors = 1 ∧
    pathIn (processFile envW "r/v.mp4" nodeVidBadW (initState [] [] 1)).2.db "r/v.mp4" = true := by
  decide

/-- C2 amended: for every file that reaches the placeholder insert, the
inserted record always persists and `skipped` is untouched; every
thumbnail-generation or metadata-extraction failure, and every image or audio
metadata persistence failure, is caught and logged only — the file is still
counted as `added` and `errors` is untouched — with one exception: a video
whose metadata update itself throws is counted in `errors` instead of
`added` (its record still persists). -/
theorem enrichment_failures_logged_only (env : Env) (fp : String) (node : FileNode)
    (s : ScanState) (st : Stat)
    (hnc : env.cancelAt = none)
    (hfresh : pathIn s.db fp = false)
    (hstat : node.stat = .ok st)
    (hunk : getFileType node.ext ≠ .unknown)
    (hproj : getFileType node.ext = .project → env.opts.scanProjects = true)
    (hjunk : junkImage (getFileType node.ext) node.imageEv = false) :
    (processFile env fp node s).1 = .ok () ∧
    pathIn (processFile env fp node s).2.db fp = true ∧
    (processFile env fp node s).2.skipped = s.skipped ∧
    ((getFileType node.ext = .video ∧ node.videoEv.metaUpdateOk = false) →
      (processFile env fp node s).2.added = s.added ∧
      (processFile env fp node s).2.errors = s.errors + 1) ∧
    (¬(getFileType node.ext = .video ∧ node.videoEv.metaUpdateOk = false) →
      (processFile env fp node s).2.added = s.added + 1 ∧
      (processFile env fp node s).2.errors = s.errors) := by
  have hca := checkAbort_none env s hnc
  rw [processFile]
  dsimp only
  simp only [hca, Bool.false_eq_true, if_false]
  have hfr2 : pathIn (checkAbort env s).2.db fp = false := hfresh
  simp only [hfr2, Bool.false_eq_true, if_false]
  rw [hstat]
  dsimp only
  rw [if_neg hunk]
  rw [if_neg (by rintro ⟨hp, hns⟩; exact hns (hproj hp))]
  rw [if_neg (by simp [hjunk])]
  obtain ⟨h1, h2, h3, h4, h5⟩ :=
    processInsert_none env fp node (getFileType node.ext) st (checkAbort env s).2 hnc
  refine ⟨h1, ?_, h2, h4, h5⟩
  rw [pathIn_iff, processInsert_paths]
  simp

/-- Witness for `enrichment_failures_logged_only`: an audio file whose
waveform render and generic placeholder both fail is still counted as added
with no error. -/
theorem enrichment_failures_logged_only_witness :
    (processFile envW "r/s.mp3" nodeAudBadW (initState [] [] 1)).2.added = 1 ∧
    (processFile envW "r/s.mp3" nodeAudBadW (initState [] [] 1)).2.errors = 0 := by
  have h := enrichment_failures_logged_only envW "r/s.mp3" nodeAudBadW (initState [] [] 1) statW
    rfl rfl rfl (by decide) (by decide) (by decide)
  obtain ⟨ha, he⟩ := h.2.2.2.2 (by decide)
  exact ⟨by rw [ha]; rfl, by rw [he]; rfl⟩

/-! ## C6: audio thumbnail fallback chain -/

/-- C6 counterexample, at two concrete inputs: an audio file whose embedded
cover is found but whose cover conversion throws does trigger the waveform
renderer; and an audio file with no cover, a failing waveform render, and a
failing generic composite ends the thumbnail stage with no thumbnail at
all. -/
theorem audio_thumbnail_chain_gaps :
    ScanAction.waveform "r/s.mp3" ∈
      (audioStage envW "r/s.mp3" audEvCoverFailW 7 (initState [] [] 1)).trace ∧
    (audioStage envW "r/s.mp3" audEvAllFailW 7 (initState [] [] 1)).thumbs = [] := by
  decide

/-- C6 amended: in the audio thumbnail stage (reached when the audio metadata
update succeeded), an embedded cover that is found and successfully converted
becomes the thumbnail and the waveform renderer is never invoked; when no
usable cover exists and the waveform path fails, the generic placeholder is
attempted; and whenever the generic composite succeeds, the record always
ends with some thumbnail — only a failure of the generic composite itself can
leave a record that reaches this stage without one. -/
theorem audio_thumbnail_fallback_chain (env : Env) (fp : String) (ev : AudioEvents)
    (mid : Nat) (s : ScanState)
    (hnc : env.cancelAt = none) (hmu : ev.metaUpdateOk = true) :
    ((ev.parseOk = true ∧ ev.hasCover = true ∧ ev.coverResizeOk = true) →
      (audioStage env fp ev mid s).trace = s.trace ∧
      (audioStage env fp ev mid s).thumbs =
        s.thumbs ++ [{ mediaId := mid, source := .cover, format := "webp" }]) ∧
    (¬(ev.parseOk = true ∧ ev.hasCover = true ∧ ev.coverResizeOk = true) →
      ¬(ev.waveformRaceOk = true ∧ ev.waveformConvertOk = true) →
      ev.genericOk = true →
      (audioStage env fp ev mid s).thumbs =
        s.thumbs ++ [{ mediaId := mid, source := .generic, format := "webp" }]) ∧
    (ev.genericOk = true →
      ∃ row ∈ (audioStage env fp ev mid s).thumbs, row.mediaId = mid) := by
  have hca : ∀ s', (checkAbort env s').1 = false := fun s' => checkAbort_none env s' hnc
  refine ⟨?_, ?_, ?_⟩
  · rintro ⟨h1, h2, h3⟩
    unfold audioStage
    dsimp only
    simp only [hmu, Bool.not_true, Bool.false_eq_true, if_false, h1, h2, h3,
      Bool.and_self, if_true]
    exact ⟨rfl, rfl⟩
  · intro hncov hnw hgen
    have hcov : (ev.parseOk && ev.hasCover && ev.coverResizeOk) = false := by
      cases hp : ev.parseOk <;> cases hh : ev.hasCover <;> cases hc : ev.coverResizeOk <;>
        simp_all
    unfold audioStage audioGeneric
    dsimp only
    simp only [hmu, Bool.not_true, Bool.false_eq_true, if_false, hcov]
    by_cases hr : ev.waveformRaceOk = true
    · have hconv : ev.waveformConvertOk = false := by
        cases hcv : ev.waveformConvertOk <;> simp_all
      simp only [hr, if_true, hca, Bool.false_eq_true, if_false, hconv, hgen, if_true]
      rfl
    · rw [Bool.not_eq_true] at hr
      simp only [hr, Bool.false_eq_true, if_false, hgen, if_true]
      rfl
  · intro hgen
    unfold audioStage audioGeneric
    dsimp only
    simp only [hmu, Bool.not_true, Bool.false_eq_true, if_false]
    by_cases hcov : (ev.parseOk && ev.hasCover && ev.coverResizeOk) = true
    · simp only [hcov, if_true]
      refine ⟨{ mediaId := mid, source := .cover, format := "webp" }, ?_, rfl⟩
      simp [insertThumb]
    · rw [Bool.not_eq_true] at hcov
      simp only [hcov, Bool.false_eq_true, if_false]
      by_cases hr : ev.waveformRaceOk = true
      · simp only [hr, if_true, hca, Bool.false_eq_true, if_false]
        by_cases hconv : ev.waveformConvertOk = true
        · simp only [hconv, if_true]
          refine ⟨{ mediaId := mid, source := .waveform, format := "webp" }, ?_, rfl⟩
          simp [insertThumb]
        · rw [Bool.not_eq_true] at hconv
          simp only [hconv, Bool.false_eq_true, if_false, hgen, if_true]
          refine ⟨{ mediaId := mid, source := .generic, format := "webp" }, ?_, rfl⟩
          simp [insertThumb]
      · rw [Bool.not_eq_true] at hr
        simp only [hr, Bool.false_eq_true, if_false, hgen, if_true]
        refine ⟨{ mediaId := mid, source := .generic, format := "webp" }, ?_, rfl⟩
        simp [insertThumb]

/-- Witness for `audio_thumbnail_fallback_chain`: a found-and-converted cover
becomes the thumbnail with no waveform invocation. -/
theorem audio_thumbnail_fallback_chain_witness :
    (audioStage envW "r/s.mp3" audEvCoverW 7 (initState [] [] 1)).trace = [] ∧
    (audioStage envW "r/s.mp3" audEvCoverW 7 (initState [] [] 1)).thumbs =
      [{ mediaId := 7, source := .cover, format := "webp" }] := by
  have h := (audio_thumbnail_fallback_chain envW "r/s.mp3" audEvCoverW 7 (initState [] [] 1)
    rfl (by decide)).1 ⟨by decide, by decide, by decide⟩
  exact ⟨h.1, h.2⟩

/-! ## C8: filepath uniqueness -/

/-- `processFile` either leaves the row set unchanged, or — only when no row
with the processed path existed — appends exactly the one new row. -/
theorem processFile_paths (env : Env) (fp : String) (node : FileNode) (s : ScanState) :
    pathsOf (processFile env fp node s).2.db = pathsOf s.db ∨
    (pathIn s.db fp = false ∧
      pathsOf (processFile env fp node s).2.db = pathsOf s.db ++ [fp]) := by
  unfold processFile
  dsimp only
  repeat' split
  all_goals try dsimp only
  all_goals
    first
    | exact Or.inl rfl
    | exact Or.inr ⟨by
        cases hb : pathIn s.db fp with
        | false => rfl
        | true => exact absurd hb (by assumption),
        processInsert_paths _ _ _ _ _ _⟩

theorem processFile_nodup (env : Env) (fp : String) (node : FileNode) (s : ScanState)
    (h : (pathsOf s.db).Nodup) : (pathsOf (processFile env fp node s).2.db).Nodup := by
  rcases processFile_paths env fp node s with hp | ⟨hfr, hp⟩
  · rw [hp]; exact h
  · rw [hp]
    refine List.Nodup.append h (List.nodup_singleton fp) ?_
    intro a ha hb
    rw [List.mem_singleton] at hb
    subst hb
    rw [← pathIn_iff] at ha
    rw [hfr] at ha
    exact absurd ha (by simp)

mutual
theorem nodup_walkEntry (env : Env) (dir : String) (e : Entry) (s : ScanState)
    (h : (pathsOf s.db).Nodup) : (pathsOf (walkEntry env dir e s).2.db).Nodup := by
  cases e with
  | broken name => exact h
  | file node => exact processFile_nodup _ _ _ _ h
  | dir name readOk es =>
    unfold walkEntry
    dsimp only
    split
    · split
      · exact h
      · split
        · exact h
        · exact nodup_walkEntries env (joinP dir name) es _ h
    · exact h

theorem nodup_walkEntries (env : Env) (dir : String) (es : Entries) (s : ScanState)
    (h : (pathsOf s.db).Nodup) : (pathsOf (walkEntries env dir es s).2.db).Nodup := by
  cases es with
  | nil => exact h
  | cons e rest =>
    unfold walkEntries
    dsimp only
    split
    · exact h
    · rcases hstep : walkEntry env dir e (checkAbort env s).2 with ⟨r, s2⟩
      have h2 := nodup_walkEntry env dir e (checkAbort env s).2 h
      rw [hstep] at h2
      cases r with
      | ok u => exact nodup_walkEntries env dir rest s2 h2
      | error u => exact h2
end

/-- C8: every scan preserves the invariant that no two MediaRecords share a
filepath — `processFile` only inserts for a path with no existing record, so
a store with pairwise-distinct filepaths still has pairwise-distinct
filepaths after any `scanDirectory` run (with any options and any
cancellation behaviour). -/
theorem scan_preserves_filepath_uniqueness (env : Env) (dir : String) (readOk : Bool)
    (es : Entries) (s : ScanState) (h : (pathsOf s.db).Nodup) :
    (pathsOf (scanDirectory env dir readOk es s).db).Nodup := by
  unfold scanDirectory walk
  dsimp only
  split
  · exact h
  · split
    · exact h
    · exact nodup_walkEntries env dir es _ h

/-- Witness for `scan_preserves_filepath_uniqueness`: scanning the two-image
tree over an empty store yields pairwise-distinct filepaths. -/
theorem scan_preserves_filepath_uniqueness_witness :
    (pathsOf (scanDirectory envW "r" true treeTwoImgW (initState [] [] 1)).db).Nodup :=
  scan_preserves_filepath_uniqueness envW "r" true treeTwoImgW (initState [] [] 1) (by decide)

/-! ## C4: cancellation -/

/-- The signal reads aborted at this state's clock. -/
def Aborted (env : Env) (s : ScanState) : Prop := abortedAt env.cancelAt s.clock = true

theorem abortedAt_mono {c : Option Nat} {k k' : Nat} (h : abortedAt c k = true) (hk : k ≤ k') :
    abortedAt c k' = true := by
  cases c with
  | none => simp [abortedAt] at h
  | some n =>
    simp only [abortedAt, decide_eq_true_eq] at h ⊢
    omega

theorem processInsert_errors (env : Env) (fp : String) (node : FileNode) (t : FileType)
    (st : Stat) (s : ScanState) (hv : t = .video → node.videoEv.metaUpdateOk = true) :
    (processInsert env fp node t st s).2.errors = s.errors := by
  unfold processInsert
  dsimp only
  split
  · rfl
  · exact processEnrich_errors env fp node t st _ _ hv

/-- A file whose stat succeeds and whose video metadata update (if it is a
video) succeeds never contributes to `errors`, whatever the cancellation
behaviour. -/
theorem processFile_errors_clean (env : Env) (fp : String) (node : FileNode) (s : ScanState)
    (hok : (match node.stat with | .ok _ => true | .error _ => false) = true)
    (hv : node.videoEv.metaUpdateOk = true) :
    (processFile env fp node s).2.errors = s.errors := by
  rcases hstat : node.stat with msg | st
  · rw [hstat] at hok
    simp at hok
  · unfold processFile
    dsimp only
    try rw [hstat]
    repeat' split
    all_goals try dsimp only
    all_goals
      first
      | rfl
      | exact processInsert_errors _ _ _ _ _ _ (fun _ => hv)
      | simp_all

mutual
theorem errors_walkEntry (env : Env) (dir : String) (e : Entry) (s : ScanState)
    (hc : cleanEntry e = true) : (walkEntry env dir e s).2.errors = s.errors := by
  cases e with
  | broken name => simp [cleanEntry] at hc
  | file node =>
    rw [cleanEntry] at hc
    obtain ⟨h1, h2⟩ : (match node.stat with | .ok _ => true | .error _ => false) = true ∧
        node.videoEv.metaUpdateOk = true := by simpa using hc
    exact processFile_errors_clean env _ node s h1 h2
  | dir name readOk es =>
    rw [cleanEntry] at hc
    obtain ⟨h1, h2⟩ : readOk = true ∧ cleanEntries es = true := by simpa using hc
    unfold walkEntry
    dsimp only
    split
    · split
      · rfl
      · split
        · next hro => rw [h1] at hro; simp at hro
        · exact errors_walkEntries env (joinP dir name) es _ h2
    · rfl

theorem errors_walkEntries (env : Env) (dir : String) (es : Entries) (s : ScanState)
    (hc : cleanEntries es = true) : (walkEntries env dir es s).2.errors = s.errors := by
  cases es with
  | nil => rfl
  | cons e rest =>
    rw [cleanEntries] at hc
    obtain ⟨h1, h2⟩ : cleanEntry e = true ∧ cleanEntries rest = true := by simpa using hc
    unfold walkEntries
    dsimp only
    split
    · rfl
    · rcases hstep : walkEntry env dir e (checkAbort env s).2 with ⟨r, s2⟩
      have he := errors_walkEntry env dir e (checkAbort env s).2 h1
      rw [hstep] at he
      cases r with
      | ok u =>
        rw [errors_walkEntries env dir rest s2 h2]
        exact he
      | error u => exact he
end

theorem metaStage_aborted (env : Env) (node : FileNode) (t : FileType) (st : Stat)
    (mid : Nat) (s1 : ScanState) (hab : Aborted env s1) :
    metaStage env node t st mid s1 = (.error (), { s1 with clock := s1.clock + 1 }) := by
  unfold metaStage
  dsimp only
  have hb : (checkAbort env s1).1 = true := hab
  simp only [hb, if_true]
  rfl

theorem metaStage_lockstep (env : Env) (node : FileNode) (t : FileType) (st : Stat)
    (mid : Nat) (s1 : ScanState) :
    (metaStage env node t st mid s1 = metaStage { env with cancelAt := none } node t st mid s1 ∧
      (metaStage env node t st mid s1).1 = .ok ()) ∨
    ((metaStage env node t st mid s1).1 = .error () ∧
      StateExtends (metaStage env node t st mid s1).2
        (metaStage { env with cancelAt := none } node t st mid s1).2) := by
  by_cases hb : (checkAbort env s1).1 = true
  · right
    rw [metaStage_aborted env node t st mid s1 hb]
    dsimp only
    refine ⟨rfl, ?_⟩
    have h := extends_metaStage { env with cancelAt := none } node t st mid s1
    exact ⟨h.paths, h.thumbs, h.trace, h.added, h.skipped, h.errors, h.nextId⟩
  · left
    rw [Bool.not_eq_true] at hb
    have hbN : (checkAbort { env with cancelAt := none } s1).1 = false := checkAbort_none _ _ rfl
    unfold metaStage
    dsimp only
    simp only [hb, hbN, Bool.false_eq_true, if_false]
    refine ⟨rfl, ?_⟩
    cases t <;> (repeat' split) <;> rfl

theorem videoThumb_lockstep (env : Env) (ev : VideoEvents) (mid : Nat) (s : ScanState) :
    (videoThumb env ev mid s = videoThumb { env with cancelAt := none } ev mid s ∧
      (videoThumb env ev mid s).1 = .ok ()) ∨
    ((videoThumb env ev mid s).1 = .error () ∧
      StateExtends (videoThumb env ev mid s).2
        (videoThumb { env with cancelAt := none } ev mid s).2) := by
  have hcaN : ∀ s' : ScanState, (checkAbort { env with cancelAt := none } s').1 = false :=
    fun s' => checkAbort_none _ s' rfl
  unfold videoThumb
  dsimp only
  simp only [hcaN, Bool.false_eq_true, if_false]
  repeat' split
  all_goals try (left; exact ⟨rfl, rfl⟩)
  all_goals try dsimp only
  all_goals
    right
    refine ⟨rfl, ?_⟩
    first
    | exact extends_insertThumb _ _ _
    | exact stateExtends_refl _

theorem audioStage_lockstep (env : Env) (fp : String) (ev : AudioEvents) (mid : Nat)
    (s : ScanState) :
    audioStage env fp ev mid s = audioStage { env with cancelAt := none } fp ev mid s ∨
    (Aborted env (audioStage env fp ev mid s) ∧
      StateExtends (audioStage env fp ev mid s)
        (audioStage { env with cancelAt := none } fp ev mid s)) := by
  have hcaN : ∀ s' : ScanState, (checkAbort { env with cancelAt := none } s').1 = false :=
    fun s' => checkAbort_none _ s' rfl
  unfold audioStage audioGeneric
  dsimp only
  simp only [hcaN, Bool.false_eq_true, if_false]
  repeat' split
  all_goals try (left; rfl)
  all_goals
    right
    constructor
    · exact abortedAt_mono (by assumption) (Nat.le_succ _)
    · first
      | exact extends_insertThumb _ _ _
      | exact stateExtends_refl _

theorem thumbStage_lockstep (env : Env) (fp : String) (node : FileNode) (t : FileType)
    (mid : Nat) (s : ScanState) :
    (thumbStage env fp node t mid s = thumbStage { env with cancelAt := none } fp node t mid s ∧
      (thumbStage env fp node t mid s).1 = .ok ()) ∨
    ((thumbStage env fp node t mid s).1 = .error () ∧
      StateExtends (thumbStage env fp node t mid s).2
        (thumbStage { env with cancelAt := none } fp node t mid s).2) ∨
    ((thumbStage env fp node t mid s).1 = .ok () ∧
      Aborted env (thumbStage env fp node t mid s).2 ∧
      StateExtends (thumbStage env fp node t mid s).2
        (thumbStage { env with cancelAt := none } fp node t mid s).2) := by
  cases t with
  | video =>
    rcases videoThumb_lockstep env node.videoEv mid s with ⟨heq, hok⟩ | ⟨herr, hext⟩
    · left; exact ⟨heq, hok⟩
    · right; left; exact ⟨herr, hext⟩
  | audio =>
    rcases audioStage_lockstep env fp node.audioEv mid s with heq | ⟨hab, hext⟩
    · left; exact ⟨by rw [thumbStage, thumbStage, heq], rfl⟩
    · right; right; exact ⟨rfl, hab, hext⟩
  | image => left; exact ⟨rfl, rfl⟩
  | document => left; exact ⟨rfl, rfl⟩
  | project => left; exact ⟨rfl, rfl⟩
  | unknown => left; exact ⟨rfl, rfl⟩

theorem processEnrich_lockstep (env : Env) (fp : String) (node : FileNode) (t : FileType)
    (st : Stat) (mid : Nat) (s : ScanState) :
    (processEnrich env fp node t st mid s
        = processEnrich { env with cancelAt := none } fp node t st mid s ∧
      (processEnrich env fp node t st mid s).1 = .ok ()) ∨
    ((processEnrich env fp node t st mid s).1 = .error () ∧
      StateExtends (processEnrich env fp node t st mid s).2
        (processEnrich { env with cancelAt := none } fp node t st mid s).2) := by
  rcases thumbStage_lockstep env fp node t mid s with ⟨heq, hok⟩ | ⟨herr, hext⟩ | ⟨hok, hab, hext⟩
  · unfold processEnrich
    rw [heq] at hok ⊢
    rcases hstep : thumbStage { env with cancelAt := none } fp node t mid s with ⟨r, s1⟩
    rw [hstep] at hok
    dsimp only at hok
    cases r with
    | error e => simp at hok
    | ok u =>
      dsimp only
      exact metaStage_lockstep env node t st mid s1
  · unfold processEnrich
    rcases hstepC : thumbStage env fp node t mid s with ⟨rC, sC⟩
    rw [hstepC] at herr hext
    dsimp only at herr hext
    rcases hstepN : thumbStage { env with cancelAt := none } fp node t mid s with ⟨rN, sN⟩
    rw [hstepN] at hext
    dsimp only at hext
    have hNok := thumbStage_none { env with cancelAt := none } fp node t mid s rfl
    rw [hstepN] at hNok
    dsimp only at hNok
    cases rC with
    | ok u => simp at herr
    | error e =>
      cases rN with
      | error e2 => simp at hNok
      | ok u2 =>
        dsimp only
        exact Or.inr ⟨rfl, stateExtends_trans hext (extends_metaStage _ _ _ _ _ _)⟩
  · unfold processEnrich
    rcases hstepC : thumbStage env fp node t mid s with ⟨rC, sC⟩
    rw [hstepC] at hok hab hext
    dsimp only at hok hab hext
    rcases hstepN : thumbStage { env with cancelAt := none } fp node t mid s with ⟨rN, sN⟩
    rw [hstepN] at hext
    dsimp only at hext
    have hNok := thumbStage_none { env with cancelAt := none } fp node t mid s rfl
    rw [hstepN] at hNok
    dsimp only at hNok
    cases rC with
    | error e => simp at hok
    | ok u =>
      cases rN with
      | error e2 => simp at hNok
      | ok u2 =>
        dsimp only
        rw [metaStage_aborted env node t st mid sC hab]
        refine Or.inr ⟨rfl, ?_⟩
        have h3 := stateExtends_trans hext
          (extends_metaStage { env with cancelAt := none } node t st mid sN)
        exact ⟨h3.paths, h3.thumbs, h3.trace, h3.added, h3.skipped, h3.errors, h3.nextId⟩

theorem processInsert_lockstep (env : Env) (fp : String) (node : FileNode) (t : FileType)
    (st : Stat) (s : ScanState) :
    (processInsert env fp node t st s
        = processInsert { env with cancelAt := none } fp node t st s ∧
      (processInsert env fp node t st s).1 = .ok ()) ∨
    ((processInsert env fp node t st s).1 = .error () ∧
      StateExtends (processInsert env fp node t st s).2
        (processInsert { env with cancelAt := none } fp node t st s).2) := by
  have hcaN : ∀ s' : ScanState, (checkAbort { env with cancelAt := none } s').1 = false :=
    fun s' => checkAbort_none _ s' rfl
  unfold processInsert
  dsimp only
  simp only [hcaN, Bool.false_eq_true, if_false]
  split
  · refine Or.inr ⟨rfl, ?_⟩
    exact extends_processEnrich _ _ _ _ _ _ _
  · exact processEnrich_lockstep env fp node t st _ _

theorem processFile_none_ok (env : Env) (fp : String) (node : FileNode) (s : ScanState)
    (hnc : env.cancelAt = none) : (processFile env fp node s).1 = .ok () := by
  have hca : ∀ s' : ScanState, (checkAbort env s').1 = false :=
    fun s' => checkAbort_none env s' hnc
  unfold processFile
  dsimp only
  simp only [hca, Bool.false_eq_true, if_false]
  repeat' split
  all_goals
    first
    | rfl
    | exact (processInsert_none env fp node _ _ _ hnc).1

theorem processFile_lockstep (env : Env) (fp : String) (node : FileNode) (s : ScanState) :
    (processFile env fp node s = processFile { env with cancelAt := none } fp node s ∧
      (processFile env fp node s).1 = .ok ()) ∨
    ((processFile env fp node s).1 = .error () ∧
      StateExtends (processFile env fp node s).2
        (processFile { env with cancelAt := none } fp node s).2) := by
  unfold processFile
  dsimp only
  simp only [checkAbort]
  try dsimp only
  simp only [abortedAt, Bool.false_eq_true, if_false]
  split
  · refine Or.inr ⟨rfl, ?_⟩
    repeat' split
    all_goals try dsimp only
    all_goals
      first
      | exact stateExtends_refl _
      | exact extends_incSkipped _
      | exact extends_incErrors _
      | exact extends_processInsert _ _ _ _ _ _
  · repeat' split
    all_goals try (left; exact ⟨rfl, rfl⟩)
    all_goals exact processInsert_lockstep env fp node _ _ _

mutual
/-- With no cancellation a single entry never unwinds. -/
theorem ok_walkEntry (env : Env) (dir : String) (e : Entry) (s : ScanState)
    (hnc : env.cancelAt = none) : (walkEntry env dir e s).1 = .ok () := by
  cases e with
  | broken name => rfl
  | file node => exact processFile_none_ok env (joinP dir node.name) node s hnc
  | dir name readOk es =>
    unfold walkEntry
    dsimp only
    simp only [checkAbort_none env s hnc, Bool.false_eq_true, if_false]
    repeat' split
    all_goals
      first
      | rfl
      | exact ok_walkEntries env (joinP dir name) es _ hnc

/-- With no cancellation the entry loop never unwinds. -/
theorem ok_walkEntries (env : Env) (dir : String) (es : Entries) (s : ScanState)
    (hnc : env.cancelAt = none) : (walkEntries env dir es s).1 = .ok () := by
  cases es with
  | nil => rfl
  | cons e rest =>
    unfold walkEntries
    dsimp only
    simp only [checkAbort_none env s hnc, Bool.false_eq_true, if_false]
    have he := ok_walkEntry env dir e (checkAbort env s).2 hnc
    rcases hw : walkEntry env dir e (checkAbort env s).2 with ⟨r, s2⟩
    rw [hw] at he
    dsimp only at he
    cases r with
    | error u => simp at he
    | ok u =>
      dsimp only
      exact ok_walkEntries env dir rest s2 hnc
end

mutual
/-- One entry of a cancellable run against the same entry of the uncancelled
run: either the signal never fired (identical results, no unwinding) or the
entry unwound with `Scan cancelled` and everything it did is an extension-
prefix of what the uncancelled run does from the same state. -/
theorem lockstep_walkEntry (env : Env) (dir : String) (e : Entry) (s : ScanState) :
    (walkEntry env dir e s = walkEntry { env with cancelAt := none } dir e s ∧
      (walkEntry env dir e s).1 = .ok ()) ∨
    ((walkEntry env dir e s).1 = .error () ∧
      StateExtends (walkEntry env dir e s).2
        (walkEntry { env with cancelAt := none } dir e s).2) := by
  cases e with
  | broken name => exact Or.inl ⟨rfl, rfl⟩
  | file node => exact processFile_lockstep env (joinP dir node.name) node s
  | dir name readOk es =>
    unfold walkEntry
    dsimp only
    have hN : (checkAbort { env with cancelAt := none } s).1 = false :=
      checkAbort_none _ s rfl
    simp only [hN, Bool.false_eq_true, if_false]
    have hstate : (checkAbort { env with cancelAt := none } s).2 = (checkAbort env s).2 := rfl
    rw [hstate]
    repeat' split
    all_goals try dsimp only
    all_goals
      first
      | exact Or.inl ⟨rfl, rfl⟩
      | exact lockstep_walkEntries env (joinP dir name) es _
      | exact Or.inr ⟨rfl, extends_incErrors _⟩
      | exact Or.inr ⟨rfl, extends_walkEntries _ _ _ _⟩

/-- The entry loop of a cancellable run against the uncancelled loop from the
same state: identical when the signal never fires, otherwise an unwound
extension-prefix. -/
theorem lockstep_walkEntries (env : Env) (dir : String) (es : Entries) (s : ScanState) :
    (walkEntries env dir es s = walkEntries { env with cancelAt := none } dir es s ∧
      (walkEntries env dir es s).1 = .ok ()) ∨
    ((walkEntries env dir es s).1 = .error () ∧
      StateExtends (walkEntries env dir es s).2
        (walkEntries { env with cancelAt := none } dir es s).2) := by
  cases es with
  | nil => exact Or.inl ⟨rfl, rfl⟩
  | cons e rest =>
    unfold walkEntries
    dsimp only
    have hN : (checkAbort { env with cancelAt := none } s).1 = false :=
      checkAbort_none _ s rfl
    simp only [hN, Bool.false_eq_true, if_false]
    have hstate : (checkAbort { env with cancelAt := none } s).2 = (checkAbort env s).2 := rfl
    rw [hstate]
    split
    · refine Or.inr ⟨rfl, ?_⟩
      have heN := ok_walkEntry { env with cancelAt := none } dir e (checkAbort env s).2 rfl
      rcases hwN : walkEntry { env with cancelAt := none } dir e (checkAbort env s).2
        with ⟨rN, sN⟩
      rw [hwN] at heN
      dsimp only at heN
      cases rN with
      | error u => simp at heN
      | ok u =>
        dsimp only
        have h1 := extends_walkEntry { env with cancelAt := none } dir e (checkAbort env s).2
        rw [hwN] at h1
        dsimp only at h1
        exact stateExtends_trans h1 (extends_walkEntries _ _ _ _)
    · rcases lockstep_walkEntry env dir e (checkAbort env s).2 with ⟨heq, hok⟩ | ⟨herr, hext⟩
      · rw [heq] at hok ⊢
        rcases hw : walkEntry { env with cancelAt := none } dir e (checkAbort env s).2
          with ⟨r, s2⟩
        rw [hw] at hok
        dsimp only at hok
        cases r with
        | error u => simp at hok
        | ok u =>
          dsimp only
          exact lockstep_walkEntries env dir rest s2
      · rcases hwC : walkEntry env dir e (checkAbort env s).2 with ⟨rC, sC⟩
        rw [hwC] at herr hext
        dsimp only at herr hext
        have heN := ok_walkEntry { env with cancelAt := none } dir e (checkAbort env s).2 rfl
        rcases hwN : walkEntry { env with cancelAt := none } dir e (checkAbort env s).2
          with ⟨rN, sN⟩
        rw [hwN] at heN hext
        dsimp only at heN hext
        cases rC with
        | ok u => simp at herr
        | error u =>
          cases rN with
          | error u2 => simp at heN
          | ok u2 =>
            dsimp only
            exact Or.inr ⟨rfl, stateExtends_trans hext (extends_walkEntries _ _ _ _)⟩
end

/-- The whole walk of a cancellable run against the uncancelled walk. -/
theorem lockstep_walk (env : Env) (dir : String) (readOk : Bool) (es : Entries)
    (s : ScanState) :
    (walk env dir readOk es s = walk { env with cancelAt := none } dir readOk es s ∧
      (walk env dir readOk es s).1 = .ok ()) ∨
    ((walk env dir readOk es s).1 = .error () ∧
      StateExtends (walk env dir readOk es s).2
        (walk { env with cancelAt := none } dir readOk es s).2) := by
  unfold walk
  dsimp only
  have hN : (checkAbort { env with cancelAt := none } s).1 = false :=
    checkAbort_none _ s rfl
  simp only [hN, Bool.false_eq_true, if_false]
  have hstate : (checkAbort { env with cancelAt := none } s).2 = (checkAbort env s).2 := rfl
  rw [hstate]
  repeat' split
  all_goals try dsimp only
  all_goals
    first
    | exact Or.inl ⟨rfl, rfl⟩
    | exact lockstep_walkEntries env dir es _
    | exact Or.inr ⟨rfl, extends_incErrors _⟩
    | exact Or.inr ⟨rfl, extends_walkEntries _ _ _ _⟩

/-- C4: cancellation safety.  For a scan whose cancellation token is set
(`cancelAt = some n`) over a tree with no real error sources, (1) every record
in the store when the scan started is still there afterwards (no rollback and,
by `processInsert`, every record inserted before the cancellation checkpoint
stays in `db`, which `scanDirectory` returns even when the walk unwound);
(2) the cancellation does not increment `errors`; and (3) the walk unwinds
rather than continuing: everything the cancelled run recorded — store rows,
trace, `added` — is exactly a prefix of (respectively at most) what the same
scan without cancellation records from the same state, i.e. the counters
returned are precisely those accumulated so far. -/
theorem cancellation_safe (env : Env) (dir : String) (es : Entries) (s : ScanState)
    (n : Nat) (hca : env.cancelAt = some n) (hclean : cleanEntries es = true) :
    pathsOf s.db <+: pathsOf (scanDirectory env dir true es s).db ∧
    (scanDirectory env dir true es s).errors = s.errors ∧
    pathsOf (scanDirectory env dir true es s).db
      <+: pathsOf (scanDirectory { env with cancelAt := none } dir true es s).db ∧
    (scanDirectory env dir true es s).trace
      <+: (scanDirectory { env with cancelAt := none } dir true es s).trace ∧
    (scanDirectory env dir true es s).added
      ≤ (scanDirectory { env with cancelAt := none } dir true es s).added := by
  have hext : StateExtends (scanDirectory env dir true es s)
      (scanDirectory { env with cancelAt := none } dir true es s) := by
    unfold scanDirectory
    rcases lockstep_walk env dir true es s with ⟨heq, _⟩ | ⟨_, hx⟩
    · rw [heq]
      exact stateExtends_refl _
    · exact hx
  refine ⟨(extends_scanDirectory env dir true es s).paths, ?_,
    hext.paths, hext.trace, hext.added⟩
  unfold scanDirectory walk
  dsimp only
  split
  · rfl
  · simp only [Bool.not_true, Bool.false_eq_true, if_false]
    exact errors_walkEntries env dir es _ hclean

theorem cancellation_safe_witness :
    envCancelW.cancelAt = some 6 ∧ cleanEntries treeTwoImgW = true ∧
    (pathsOf (initState [] [] 1).db
        <+: pathsOf (scanDirectory envCancelW "root" true treeTwoImgW (initState [] [] 1)).db ∧
      (scanDirectory envCancelW "root" true treeTwoImgW (initState [] [] 1)).errors
        = (initState [] [] 1).errors ∧
      pathsOf (scanDirectory envCancelW "root" true treeTwoImgW (initState [] [] 1)).db
        <+: pathsOf (scanDirectory { envCancelW with cancelAt := none } "root" true treeTwoImgW
              (initState [] [] 1)).db ∧
      (scanDirectory envCancelW "root" true treeTwoImgW (initState [] [] 1)).trace
        <+: (scanDirectory { envCancelW with cancelAt := none } "root" true treeTwoImgW
              (initState [] [] 1)).trace ∧
      (scanDirectory envCancelW "root" true treeTwoImgW (initState [] [] 1)).added
        ≤ (scanDirectory { envCancelW with cancelAt := none } "root" true treeTwoImgW
              (initState [] [] 1)).added) :=
  ⟨rfl, by decide,
    cancellation_safe envCancelW "root" treeTwoImgW (initState [] [] 1) 6 rfl (by decide)⟩

theorem pathIn_mono {a b : List MediaRecord} (h : pathsOf a <+: pathsOf b) (q : String)
    (hq : pathIn a q = true) : pathIn b q = true := by
  rw [pathIn_iff] at hq ⊢
  exact h.subset hq

/-- Whether `processFile` reaches the insert when the path is absent: the stat
succeeded and none of the type/junk gates fires (scanner.ts lines 126-146). -/
def inserts (env : Env) (node : FileNode) : Bool :=
  match node.stat with
  | .error _ => false
  | .ok _ =>
    !(decide (getFileType node.ext = FileType.unknown)) &&
    !(decide (getFileType node.ext = FileType.project ∧ ¬env.opts.scanProjects = true)) &&
    !(junkImage (getFileType node.ext) node.imageEv)

theorem processFile_skip (env : Env) (fp : String) (node : FileNode) (u : ScanState)
    (hnc : env.cancelAt = none) (h : pathIn u.db fp = true) :
    processFile env fp node u = (.ok (), incSkipped (checkAbort env u).2) := by
  unfold processFile
  dsimp only
  simp only [checkAbort_none env u hnc, Bool.false_eq_true, if_false]
  have hpi : pathIn (checkAbort env u).2.db fp = true := h
  rw [if_pos hpi]

theorem processFile_statErr (env : Env) (fp : String) (node : FileNode) (u : ScanState)
    (msg : String) (hnc : env.cancelAt = none) (h : pathIn u.db fp = false)
    (hstat : node.stat = .error msg) :
    processFile env fp node u = (.ok (), incErrors (checkAbort env u).2) := by
  unfold processFile
  dsimp only
  simp only [checkAbort_none env u hnc, Bool.false_eq_true, if_false]
  have hpi : ¬pathIn (checkAbort env u).2.db fp = true := by
    show ¬pathIn u.db fp = true
    simp [h]
  rw [if_neg hpi, hstat]

theorem processFile_gate (env : Env) (fp : String) (node : FileNode) (u : ScanState)
    (st : Stat) (hnc : env.cancelAt = none) (h : pathIn u.db fp = false)
    (hstat : node.stat = .ok st)
    (hgate : getFileType node.ext = FileType.unknown ∨
      (getFileType node.ext = FileType.project ∧ ¬env.opts.scanProjects = true)) :
    processFile env fp node u = (.ok (), (checkAbort env u).2) := by
  unfold processFile
  dsimp only
  simp only [checkAbort_none env u hnc, Bool.false_eq_true, if_false]
  have hpi : ¬pathIn (checkAbort env u).2.db fp = true := by
    show ¬pathIn u.db fp = true
    simp [h]
  rw [if_neg hpi, hstat]
  dsimp only
  rcases hgate with hun | ⟨hp, hsp⟩
  · rw [if_pos hun]
  · have hg1 : ¬(getFileType node.ext = FileType.unknown) := by rw [hp]; decide
    rw [if_neg hg1, if_pos ⟨hp, hsp⟩]

theorem processFile_junkCase (env : Env) (fp : String) (node : FileNode) (u : ScanState)
    (st : Stat) (hnc : env.cancelAt = none) (h : pathIn u.db fp = false)
    (hstat : node.stat = .ok st)
    (hj : junkImage (getFileType node.ext) node.imageEv = true) :
    processFile env fp node u = (.ok (), incSkipped (checkAbort env u).2) := by
  have himg : getFileType node.ext = FileType.image := by
    unfold junkImage at hj
    cases hb : (getFileType node.ext == FileType.image) with
    | false => rw [hb] at hj; simp at hj
    | true => simpa using hb
  have hg1 : ¬(getFileType node.ext = FileType.unknown) := by rw [himg]; decide
  have hg2 : ¬(getFileType node.ext = FileType.project ∧ ¬env.opts.scanProjects = true) := by
    rw [himg]
    rintro ⟨hc, -⟩
    exact absurd hc (by decide)
  unfold processFile
  dsimp only
  simp only [checkAbort_none env u hnc, Bool.false_eq_true, if_false]
  have hpi : ¬pathIn (checkAbort env u).2.db fp = true := by
    show ¬pathIn u.db fp = true
    simp [h]
  rw [if_neg hpi, hstat]
  dsimp only
  rw [if_neg hg1, if_neg hg2, if_pos hj]

theorem processFile_ins (env : Env) (fp : String) (node : FileNode) (u : ScanState)
    (st : Stat) (hnc : env.cancelAt = none) (h : pathIn u.db fp = false)
    (hstat : node.stat = .ok st) (hins : inserts env node = true) :
    processFile env fp node u
      = processInsert env fp node (getFileType node.ext) st (checkAbort env u).2 := by
  unfold inserts at hins
  rw [hstat] at hins
  dsimp only at hins
  obtain ⟨⟨h1, h2'⟩, h3⟩ : (¬getFileType node.ext = FileType.unknown ∧
      (¬getFileType node.ext = FileType.project ∨ env.opts.scanProjects = true)) ∧
      junkImage (getFileType node.ext) node.imageEv = false := by
    simpa using hins
  have h2 : ¬(getFileType node.ext = FileType.project ∧ ¬env.opts.scanProjects = true) := by
    rintro ⟨hp, hsp⟩
    rcases h2' with hnp | hsp'
    · exact hnp hp
    · exact hsp hsp'
  have hj' : ¬(junkImage (getFileType node.ext) node.imageEv = true) := by simp [h3]
  unfold processFile
  dsimp only
  simp only [checkAbort_none env u hnc, Bool.false_eq_true, if_false]
  have hpi : ¬pathIn (checkAbort env u).2.db fp = true := by
    show ¬pathIn u.db fp = true
    simp [h]
  rw [if_neg hpi, hstat]
  dsimp only
  rw [if_neg h1, if_neg h2, if_neg hj']

/-- Any file node falls in exactly one of the `processFile` regimes: failing
stat, one of the pre-insert gates, or the insert path. -/
theorem node_classify (env : Env) (node : FileNode) :
    (∃ msg, node.stat = .error msg) ∨
    ∃ st, node.stat = .ok st ∧
      (getFileType node.ext = FileType.unknown ∨
        (getFileType node.ext = FileType.project ∧ ¬env.opts.scanProjects = true) ∨
        junkImage (getFileType node.ext) node.imageEv = true ∨
        inserts env node = true) := by
  cases hstat : node.stat with
  | error msg => exact Or.inl ⟨msg, rfl⟩
  | ok st =>
    refine Or.inr ⟨st, rfl, ?_⟩
    by_cases h1 : getFileType node.ext = FileType.unknown
    · exact Or.inl h1
    by_cases h2 : getFileType node.ext = FileType.project ∧ ¬env.opts.scanProjects = true
    · exact Or.inr (Or.inl h2)
    cases h3 : junkImage (getFileType node.ext) node.imageEv with
    | true => exact Or.inr (Or.inr (Or.inl rfl))
    | false =>
      refine Or.inr (Or.inr (Or.inr ?_))
      unfold inserts
      rw [hstat]
      dsimp only
      simp [h1, h2, h3]
      by_cases hp : getFileType node.ext = FileType.project
      · right
        by_contra hsp
        exact h2 ⟨hp, by simpa using hsp⟩
      · exact Or.inl hp

/-- If a run of `processFile` with no cancellation leaves the file's path in
the store, it counted the file exactly once — as added, skipped or errored —
and at most one of added/skipped. -/
theorem processFile_delta1 (env : Env) (fp : String) (node : FileNode) (s : ScanState)
    (hnc : env.cancelAt = none)
    (hin : pathIn (processFile env fp node s).2.db fp = true) :
    (processFile env fp node s).2.added + (processFile env fp node s).2.skipped
        + (processFile env fp node s).2.errors
      = s.added + s.skipped + s.errors + 1 ∧
    (processFile env fp node s).2.added + (processFile env fp node s).2.skipped
      ≤ s.added + s.skipped + 1 := by
  cases h1 : pathIn s.db fp with
  | true =>
    rw [processFile_skip env fp node s hnc h1]
    dsimp only
    have e1 : (incSkipped (checkAbort env s).2).added = s.added := rfl
    have e2 : (incSkipped (checkAbort env s).2).skipped = s.skipped + 1 := rfl
    have e3 : (incSkipped (checkAbort env s).2).errors = s.errors := rfl
    exact ⟨by omega, by omega⟩
  | false =>
    rcases node_classify env node with ⟨msg, hstat⟩ | ⟨st, hstat, hcase⟩
    · rw [processFile_statErr env fp node s msg hnc h1 hstat] at hin
      exact absurd (show pathIn s.db fp = true from hin) (by simp [h1])
    · rcases hcase with hun | hproj | hjunk | hins
      · rw [processFile_gate env fp node s st hnc h1 hstat (Or.inl hun)] at hin
        exact absurd (show pathIn s.db fp = true from hin) (by simp [h1])
      · rw [processFile_gate env fp node s st hnc h1 hstat (Or.inr hproj)] at hin
        exact absurd (show pathIn s.db fp = true from hin) (by simp [h1])
      · rw [processFile_junkCase env fp node s st hnc h1 hstat hjunk] at hin
        exact absurd (show pathIn s.db fp = true from hin) (by simp [h1])
      · rw [processFile_ins env fp node s st hnc h1 hstat hins]
        try dsimp only
        obtain ⟨-, hsk, -, hvid, hnvid⟩ :=
          processInsert_none env fp node (getFileType node.ext) st (checkAbort env s).2 hnc
        have e1 : (checkAbort env s).2.added = s.added := rfl
        have e2 : (checkAbort env s).2.skipped = s.skipped := rfl
        have e3 : (checkAbort env s).2.errors = s.errors := rfl
        by_cases hv : getFileType node.ext = FileType.video ∧ node.videoEv.metaUpdateOk = false
        · obtain ⟨ha, he⟩ := hvid hv
          exact ⟨by omega, by omega⟩
        · obtain ⟨ha, he⟩ := hnvid hv
          exact ⟨by omega, by omega⟩

/-- The second-scan behaviour of one file, given that everything the first
scan's step left in its store is present in the rescan store (`HA`) and that
the rescan store holds this path only if the first scan's step left it there
(`HB`): the rescan inserts nothing, adds nothing, mirrors every
added/skipped/errored count of the first run one-for-one as skipped/errored,
and re-counts at least the added/skipped ones as skipped. -/
theorem processFile_rescan (env : Env) (fp : String) (node : FileNode) (s t : ScanState)
    (hnc : env.cancelAt = none)
    (HA : ∀ q, pathIn (processFile env fp node s).2.db q = true → pathIn t.db q = true)
    (HB : pathIn t.db fp = true → pathIn (processFile env fp node s).2.db fp = true) :
    (processFile env fp node t).2.db = t.db ∧
    (processFile env fp node t).2.added = t.added ∧
    (processFile env fp node t).2.skipped + (processFile env fp node t).2.errors
        + (s.added + s.skipped + s.errors)
      = t.skipped + t.errors + ((processFile env fp node s).2.added
        + (processFile env fp node s).2.skipped + (processFile env fp node s).2.errors) ∧
    t.skipped + ((processFile env fp node s).2.added + (processFile env fp node s).2.skipped)
      ≤ (processFile env fp node t).2.skipped + (s.added + s.skipped) := by
  cases h2 : pathIn t.db fp with
  | true =>
    rw [processFile_skip env fp node t hnc h2]
    dsimp only
    obtain ⟨hd1, hd2⟩ := processFile_delta1 env fp node s hnc (HB h2)
    have e2 : (incSkipped (checkAbort env t).2).skipped = t.skipped + 1 := rfl
    have e3 : (incSkipped (checkAbort env t).2).errors = t.errors := rfl
    exact ⟨rfl, rfl, by omega, by omega⟩
  | false =>
    have hs' : pathIn (processFile env fp node s).2.db fp = false := by
      cases hb : pathIn (processFile env fp node s).2.db fp with
      | false => rfl
      | true => exact absurd (HA fp hb) (by simp [h2])
    have h1 : pathIn s.db fp = false := by
      cases hb : pathIn s.db fp with
      | false => rfl
      | true =>
        have hm := pathIn_mono (extends_processFile env fp node s).paths fp hb
        exact absurd hm (by simp [hs'])
    rcases node_classify env node with ⟨msg, hstat⟩ | ⟨st, hstat, hcase⟩
    · rw [processFile_statErr env fp node s msg hnc h1 hstat,
        processFile_statErr env fp node t msg hnc h2 hstat]
      dsimp only
      have c1 : (incErrors (checkAbort env s).2).added = s.added := rfl
      have c2 : (incErrors (checkAbort env s).2).skipped = s.skipped := rfl
      have c3 : (incErrors (checkAbort env s).2).errors = s.errors + 1 := rfl
      have d2 : (incErrors (checkAbort env t).2).skipped = t.skipped := rfl
      have d3 : (incErrors (checkAbort env t).2).errors = t.errors + 1 := rfl
      exact ⟨rfl, rfl, by omega, by omega⟩
    · rcases hcase with hun | hproj | hjunk | hins
      · rw [processFile_gate env fp node s st hnc h1 hstat (Or.inl hun),
          processFile_gate env fp node t st hnc h2 hstat (Or.inl hun)]
        dsimp only
        have c1 : (checkAbort env s).2.added = s.added := rfl
        have c2 : (checkAbort env s).2.skipped = s.skipped := rfl
        have c3 : (checkAbort env s).2.errors = s.errors := rfl
        have d2 : (checkAbort env t).2.skipped = t.skipped := rfl
        have d3 : (checkAbort env t).2.errors = t.errors := rfl
        exact ⟨rfl, rfl, by omega, by omega⟩
      · rw [processFile_gate env fp node s st hnc h1 hstat (Or.inr hproj),
          processFile_gate env fp node t st hnc h2 hstat (Or.inr hproj)]
        dsimp only
        have c1 : (checkAbort env s).2.added = s.added := rfl
        have c2 : (checkAbort env s).2.skipped = s.skipped := rfl
        have c3 : (checkAbort env s).2.errors = s.errors := rfl
        have d2 : (checkAbort env t).2.skipped = t.skipped := rfl
        have d3 : (checkAbort env t).2.errors = t.errors := rfl
        exact ⟨rfl, rfl, by omega, by omega⟩
      · rw [processFile_junkCase env fp node s st hnc h1 hstat hjunk,
          processFile_junkCase env fp node t st hnc h2 hstat hjunk]
        dsimp only
        have c1 : (incSkipped (checkAbort env s).2).added = s.added := rfl
        have c2 : (incSkipped (checkAbort env s).2).skipped = s.skipped + 1 := rfl
        have c3 : (incSkipped (checkAbort env s).2).errors = s.errors := rfl
        have d2 : (incSkipped (checkAbort env t).2).skipped = t.skipped + 1 := rfl
        have d3 : (incSkipped (checkAbort env t).2).errors = t.errors := rfl
        exact ⟨rfl, rfl, by omega, by omega⟩
      · rw [processFile_ins env fp node s st hnc h1 hstat hins] at hs'
        have hp : pathIn (processInsert env fp node (getFileType node.ext) st
            (checkAbort env s).2).2.db fp = true := by
          rw [pathIn_iff, processInsert_paths]
          simp
        rw [hp] at hs'
        exact absurd hs' (by decide)

mutual
/-- Any path in the store after one entry was either there before or is the
path of a file of that entry. -/
theorem pathSub_walkEntry (env : Env) (dir : String) (e : Entry) (s : ScanState) (q : String)
    (hq : pathIn (walkEntry env dir e s).2.db q = true) :
    pathIn s.db q = true ∨ q ∈ (entryFiles dir e).map Prod.fst := by
  cases e with
  | broken name => exact Or.inl hq
  | file node =>
    have hq' : pathIn (processFile env (joinP dir node.name) node s).2.db q = true := hq
    rcases processFile_paths env (joinP dir node.name) node s with hp | ⟨-, hp⟩
    · left
      rw [pathIn_iff] at hq' ⊢
      rw [hp] at hq'
      exact hq'
    · rw [pathIn_iff, hp] at hq'
      rcases List.mem_append.mp hq' with h | h
      · left
        rw [pathIn_iff]
        exact h
      · right
        rw [List.mem_singleton] at h
        show q ∈ [joinP dir node.name]
        exact List.mem_singleton.mpr h
  | dir name readOk es =>
    unfold walkEntry at hq
    dsimp only at hq
    split at hq
    · split at hq
      · exact Or.inl hq
      · split at hq
        · exact Or.inl hq
        · rcases pathSub_walkEntries env (joinP dir name) es _ q hq with h | h
          · exact Or.inl h
          · exact Or.inr h
    · exact Or.inl hq

/-- Any path in the store after the entry loop was either there before or is
the path of a file of the list. -/
theorem pathSub_walkEntries (env : Env) (dir : String) (es : Entries) (s : ScanState)
    (q : String) (hq : pathIn (walkEntries env dir es s).2.db q = true) :
    pathIn s.db q = true ∨ q ∈ entriesPaths dir es := by
  cases es with
  | nil => exact Or.inl hq
  | cons e rest =>
    unfold walkEntries at hq
    dsimp only at hq
    split at hq
    · exact Or.inl hq
    · rcases hw : walkEntry env dir e (checkAbort env s).2 with ⟨r, s1⟩
      rw [hw] at hq
      cases r with
      | error u =>
        dsimp only at hq
        rcases pathSub_walkEntry env dir e (checkAbort env s).2 q
            (by rw [hw]; exact hq) with h | h
        · exact Or.inl h
        · right
          show q ∈ (entryFiles dir e ++ entriesFiles dir rest).map Prod.fst
          rw [List.map_append]
          exact List.mem_append_left _ h
      | ok u =>
        dsimp only at hq
        rcases pathSub_walkEntries env dir rest s1 q hq with h | h
        · rcases pathSub_walkEntry env dir e (checkAbort env s).2 q
              (by rw [hw]; exact h) with h' | h'
          · exact Or.inl h'
          · right
            show q ∈ (entryFiles dir e ++ entriesFiles dir rest).map Prod.fst
            rw [List.map_append]
            exact List.mem_append_left _ h'
        · right
          show q ∈ (entryFiles dir e ++ entriesFiles dir rest).map Prod.fst
          rw [List.map_append]
          exact List.mem_append_right _ h
end

mutual
/-- Rescan of one entry: under the same `HA`/`HB` conditions as
`processFile_rescan` (relative to all file paths of the entry), the second
run of an entry leaves its store and `added` untouched, mirrors the first
run's added/skipped/errored one-for-one as skipped/errored, and re-counts at
least the added/skipped ones as skipped. -/
theorem rescan_walkEntry (env : Env) (dir : String) (e : Entry) (s t : ScanState)
    (hnc : env.cancelAt = none)
    (hnd : ((entryFiles dir e).map Prod.fst).Nodup)
    (HA : ∀ q, pathIn (walkEntry env dir e s).2.db q = true → pathIn t.db q = true)
    (HB : ∀ p ∈ (entryFiles dir e).map Prod.fst, pathIn t.db p = true →
        pathIn (walkEntry env dir e s).2.db p = true) :
    (walkEntry env dir e t).2.db = t.db ∧
    (walkEntry env dir e t).2.added = t.added ∧
    (walkEntry env dir e t).2.skipped + (walkEntry env dir e t).2.errors
        + (s.added + s.skipped + s.errors)
      = t.skipped + t.errors + ((walkEntry env dir e s).2.added
        + (walkEntry env dir e s).2.skipped + (walkEntry env dir e s).2.errors) ∧
    t.skipped + ((walkEntry env dir e s).2.added + (walkEntry env dir e s).2.skipped)
      ≤ (walkEntry env dir e t).2.skipped + (s.added + s.skipped) := by
  cases e with
  | broken name =>
    have c1 : (walkEntry env dir (Entry.broken name) s).2.added = s.added := rfl
    have c2 : (walkEntry env dir (Entry.broken name) s).2.skipped = s.skipped := rfl
    have c3 : (walkEntry env dir (Entry.broken name) s).2.errors = s.errors + 1 := rfl
    have d2 : (walkEntry env dir (Entry.broken name) t).2.skipped = t.skipped := rfl
    have d3 : (walkEntry env dir (Entry.broken name) t).2.errors = t.errors + 1 := rfl
    exact ⟨rfl, rfl, by omega, by omega⟩
  | file node =>
    exact processFile_rescan env (joinP dir node.name) node s t hnc
      (fun q hq => HA q hq)
      (fun hp => HB (joinP dir node.name)
        (show joinP dir node.name ∈ [joinP dir node.name] from List.mem_singleton.mpr rfl) hp)
  | dir name readOk es =>
    have hN : (checkAbort env s).1 = false := checkAbort_none env s hnc
    have hNt : (checkAbort env t).1 = false := checkAbort_none env t hnc
    unfold walkEntry at HA HB ⊢
    dsimp only at HA HB ⊢
    by_cases hsub : env.opts.includeSubfolders = true
    · simp only [hsub, if_true, hN, hNt, Bool.false_eq_true, if_false] at HA HB ⊢
      cases hro : readOk with
      | false =>
        try rw [hro] at HA
        try rw [hro] at HB
        try rw [hro]
        simp only [Bool.not_false, eq_self_iff_true, if_true] at HA HB ⊢
        have a1 : (checkAbort env s).2.added = s.added := rfl
        have a2 : (checkAbort env s).2.skipped = s.skipped := rfl
        have a3 : (checkAbort env s).2.errors = s.errors := rfl
        have b2 : (checkAbort env t).2.skipped = t.skipped := rfl
        have b3 : (checkAbort env t).2.errors = t.errors := rfl
        have c1 : (incErrors (checkAbort env s).2).added = s.added := rfl
        have c2 : (incErrors (checkAbort env s).2).skipped = s.skipped := rfl
        have c3 : (incErrors (checkAbort env s).2).errors = s.errors + 1 := rfl
        have d2 : (incErrors (checkAbort env t).2).skipped = t.skipped := rfl
        have d3 : (incErrors (checkAbort env t).2).errors = t.errors + 1 := rfl
        exact ⟨rfl, rfl, by omega, by omega⟩
      | true =>
        try rw [hro] at HA
        try rw [hro] at HB
        try rw [hro]
        simp only [Bool.not_true, Bool.false_eq_true, if_false] at HA HB ⊢
        have IH := rescan_walkEntries env (joinP dir name) es
          (checkAbort env s).2 (checkAbort env t).2 hnc hnd
          (fun q hq => HA q hq) (fun p hp hpt => HB p hp hpt)
        obtain ⟨i1, i2, i3, i4⟩ := IH
        have a1 : (checkAbort env s).2.added = s.added := rfl
        have a2 : (checkAbort env s).2.skipped = s.skipped := rfl
        have a3 : (checkAbort env s).2.errors = s.errors := rfl
        have b1 : (checkAbort env t).2.added = t.added := rfl
        have b2 : (checkAbort env t).2.skipped = t.skipped := rfl
        have b3 : (checkAbort env t).2.errors = t.errors := rfl
        exact ⟨i1, by omega, by omega, by omega⟩
    · rw [if_neg hsub]
      try rw [if_neg hsub]
      try dsimp only
      exact ⟨rfl, rfl, by omega, by omega⟩

/-- Rescan of the entry loop, by induction over the entries. -/
theorem rescan_walkEntries (env : Env) (dir : String) (es : Entries) (s t : ScanState)
    (hnc : env.cancelAt = none)
    (hnd : (entriesPaths dir es).Nodup)
    (HA : ∀ q, pathIn (walkEntries env dir es s).2.db q = true → pathIn t.db q = true)
    (HB : ∀ p ∈ entriesPaths dir es, pathIn t.db p = true →
        pathIn (walkEntries env dir es s).2.db p = true) :
    (walkEntries env dir es t).2.db = t.db ∧
    (walkEntries env dir es t).2.added = t.added ∧
    (walkEntries env dir es t).2.skipped + (walkEntries env dir es t).2.errors
        + (s.added + s.skipped + s.errors)
      = t.skipped + t.errors + ((walkEntries env dir es s).2.added
        + (walkEntries env dir es s).2.skipped + (walkEntries env dir es s).2.errors) ∧
    t.skipped + ((walkEntries env dir es s).2.added + (walkEntries env dir es s).2.skipped)
      ≤ (walkEntries env dir es t).2.skipped + (s.added + s.skipped) := by
  cases es with
  | nil =>
    have c1 : (walkEntries env dir Entries.nil s).2.added = s.added := rfl
    have c2 : (walkEntries env dir Entries.nil s).2.skipped = s.skipped := rfl
    have c3 : (walkEntries env dir Entries.nil s).2.errors = s.errors := rfl
    have d2 : (walkEntries env dir Entries.nil t).2.skipped = t.skipped := rfl
    have d3 : (walkEntries env dir Entries.nil t).2.errors = t.errors := rfl
    exact ⟨rfl, rfl, by omega, by omega⟩
  | cons e rest =>
    have hN : (checkAbort env s).1 = false := checkAbort_none env s hnc
    have hNt : (checkAbort env t).1 = false := checkAbort_none env t hnc
    unfold walkEntries at HA HB ⊢
    dsimp only at HA HB ⊢
    simp only [hN, hNt, Bool.false_eq_true, if_false] at HA HB ⊢
    rcases hw : walkEntry env dir e (checkAbort env s).2 with ⟨r, s1⟩
    rw [hw] at HA HB
    have hr : r = .ok () := by
      have ho := ok_walkEntry env dir e (checkAbort env s).2 hnc
      rw [hw] at ho
      cases r with
      | ok u => rfl
      | error u => simp at ho
    subst hr
    dsimp only at HA HB ⊢
    rcases hwt : walkEntry env dir e (checkAbort env t).2 with ⟨rt, t1⟩
    have hrt : rt = .ok () := by
      have ho := ok_walkEntry env dir e (checkAbort env t).2 hnc
      rw [hwt] at ho
      cases rt with
      | ok u => rfl
      | error u => simp at ho
    subst hrt
    dsimp only
    have hnd2 : (((entryFiles dir e).map Prod.fst)
        ++ ((entriesFiles dir rest).map Prod.fst)).Nodup := by
      have h := hnd
      rw [show entriesPaths dir (Entries.cons e rest)
          = ((entryFiles dir e).map Prod.fst) ++ ((entriesFiles dir rest).map Prod.fst) from by
        show (entryFiles dir e ++ entriesFiles dir rest).map Prod.fst = _
        rw [List.map_append]] at h
      exact h
    obtain ⟨hndE, hndR, hdisj⟩ := List.nodup_append.mp hnd2
    have hext_rest : StateExtends s1 (walkEntries env dir rest s1).2 :=
      extends_walkEntries env dir rest s1
    have HAe : ∀ q, pathIn (walkEntry env dir e (checkAbort env s).2).2.db q = true →
        pathIn (checkAbort env t).2.db q = true := by
      intro q hq
      rw [hw] at hq
      dsimp only at hq
      exact HA q (pathIn_mono hext_rest.paths q hq)
    have HBe : ∀ p ∈ (entryFiles dir e).map Prod.fst,
        pathIn (checkAbort env t).2.db p = true →
        pathIn (walkEntry env dir e (checkAbort env s).2).2.db p = true := by
      intro p hp hpt
      rw [hw]
      dsimp only
      have h1 := HB p (by
        show p ∈ (entryFiles dir e ++ entriesFiles dir rest).map Prod.fst
        rw [List.map_append]
        exact List.mem_append_left _ hp) hpt
      rcases pathSub_walkEntries env dir rest s1 p h1 with h | h
      · exact h
      · exact absurd h (hdisj hp)
    have IHe := rescan_walkEntry env dir e (checkAbort env s).2 (checkAbort env t).2
      hnc hndE HAe HBe
    obtain ⟨ie1, ie2, ie3, ie4⟩ := IHe
    rw [hw] at ie3 ie4
    rw [hwt] at ie1 ie2 ie3 ie4
    dsimp only at ie1 ie2 ie3 ie4
    have HAr : ∀ q, pathIn (walkEntries env dir rest s1).2.db q = true →
        pathIn t1.db q = true := by
      intro q hq
      rw [ie1]
      exact HA q hq
    have HBr : ∀ p ∈ entriesPaths dir rest, pathIn t1.db p = true →
        pathIn (walkEntries env dir rest s1).2.db p = true := by
      intro p hp hpt
      rw [ie1] at hpt
      exact HB p (by
        show p ∈ (entryFiles dir e ++ entriesFiles dir rest).map Prod.fst
        rw [List.map_append]
        exact List.mem_append_right _ hp) hpt
    have IHr := rescan_walkEntries env dir rest s1 t1 hnc hndR HAr HBr
    obtain ⟨ir1, ir2, ir3, ir4⟩ := IHr
    have a1 : (checkAbort env s).2.added = s.added := rfl
    have a2 : (checkAbort env s).2.skipped = s.skipped := rfl
    have a3 : (checkAbort env s).2.errors = s.errors := rfl
    have b1 : (checkAbort env t).2.added = t.added := rfl
    have b2 : (checkAbort env t).2.skipped = t.skipped := rfl
    have b3 : (checkAbort env t).2.errors = t.errors := rfl
    refine ⟨?_, ?_, by omega, by omega⟩
    · rw [ir1, ie1]
      rfl
    · rw [ir2, ie2]
      rfl
end

theorem scanDirectory_none (env : Env) (dir : String) (es : Entries)
    (hnc : env.cancelAt = none) (s : ScanState) :
    scanDirectory env dir true es s = (walkEntries env dir es (checkAbort env s).2).2 := by
  unfold scanDirectory walk
  dsimp only
  simp only [checkAbort_none env s hnc, Bool.false_eq_true, if_false, Bool.not_true]

/-- Rescan of a whole unchanged tree from a fresh result accumulator over the
first scan's store. -/
theorem rescan_top (env : Env) (dir : String) (es : Entries) (s t : ScanState)
    (hnc : env.cancelAt = none) (hnd : (entriesPaths dir es).Nodup)
    (hs : s.added = 0 ∧ s.skipped = 0 ∧ s.errors = 0)
    (ht : t.added = 0 ∧ t.skipped = 0 ∧ t.errors = 0)
    (hdb : t.db = (scanDirectory env dir true es s).db) :
    (scanDirectory env dir true es t).added = 0 ∧
    (scanDirectory env dir true es t).db = (scanDirectory env dir true es s).db ∧
    (scanDirectory env dir true es t).skipped + (scanDirectory env dir true es t).errors
      = (scanDirectory env dir true es s).added + (scanDirectory env dir true es s).skipped
        + (scanDirectory env dir true es s).errors ∧
    (scanDirectory env dir true es s).added + (scanDirectory env dir true es s).skipped
      ≤ (scanDirectory env dir true es t).skipped := by
  obtain ⟨hs1, hs2, hs3⟩ := hs
  obtain ⟨ht1, ht2, ht3⟩ := ht
  simp only [scanDirectory_none env dir es hnc] at hdb ⊢
  have H := rescan_walkEntries env dir es (checkAbort env s).2 (checkAbort env t).2 hnc hnd
    (fun q hq => by
      show pathIn t.db q = true
      rw [hdb]
      exact hq)
    (fun p hp hpt => by
      have h' : pathIn t.db p = true := hpt
      rw [hdb] at h'
      exact h')
  obtain ⟨r1, r2, r3, r4⟩ := H
  have a1 : (checkAbort env s).2.added = 0 := hs1
  have a2 : (checkAbort env s).2.skipped = 0 := hs2
  have a3 : (checkAbort env s).2.errors = 0 := hs3
  have b1 : (checkAbort env t).2.added = 0 := ht1
  have b2 : (checkAbort env t).2.skipped = 0 := ht2
  have b3 : (checkAbort env t).2.errors = 0 := ht3
  refine ⟨?_, ?_, by omega, by omega⟩
  · rw [r2]
    exact b1
  · rw [r1]
    exact hdb

/-- C1 counterexample: one unchanged tree holding a single video file whose
metadata `update ... run()` throws, scanned twice from an empty store.  The
first scan counts the file in `errors` (not `added`, not `skipped`) while its
inserted record persists, so the second scan finds the path in the store and
counts it `skipped`: `skipped` on the second run is 1, yet the first run
counted 0 files as added-or-skipped — the claimed equality
`skipped₂ = added₁ + skipped₁` fails.  (`added₂ = 0` and the absence of new
records do hold.) -/
theorem rescan_after_video_error_counts_skip :
    scanVidBad1.added = 0 ∧ scanVidBad1.skipped = 0 ∧ scanVidBad1.errors = 1 ∧
    scanVidBad2.added = 0 ∧ scanVidBad2.db = scanVidBad1.db ∧
    scanVidBad2.skipped = 1 ∧
    ¬scanVidBad2.skipped = scanVidBad1.added + scanVidBad1.skipped := by
  decide

/-- C1 (amended): scanning the same unchanged readable tree twice with the
same options (no cancellation; the tree's file paths are distinct, as on a
real filesystem) gives a second scan with `added = 0` and an unchanged store
(no new MediaRecords): every file the first scan counted as added or skipped
is counted as skipped by the second — but so is every file whose video
metadata update failed after its insert, which the first scan counted in
`errors`.  Hence `skipped₂ + errors₂ = added₁ + skipped₁ + errors₁` and
`skipped₂ ≥ added₁ + skipped₁`, with `skipped₂ = added₁ + skipped₁` exactly
when no such error-after-insert file exists. -/
theorem rescan_idempotent (env : Env) (dir : String) (es : Entries)
    (db : List MediaRecord) (th : List ThumbRow) (nid : Nat) (s1 s2 : ScanState)
    (hnc : env.cancelAt = none) (hnd : (entriesPaths dir es).Nodup)
    (h1 : s1 = scanDirectory env dir true es (initState db th nid))
    (h2 : s2 = scanDirectory env dir true es (initState s1.db s1.thumbs s1.nextId)) :
    s2.added = 0 ∧ s2.db = s1.db ∧
    s2.skipped + s2.errors = s1.added + s1.skipped + s1.errors ∧
    s1.added + s1.skipped ≤ s2.skipped := by
  subst h2
  subst h1
  exact rescan_top env dir es (initState db th nid) (initState _ _ _) hnc hnd
    ⟨rfl, rfl, rfl⟩ ⟨rfl, rfl, rfl⟩ rfl

theorem rescan_idempotent_witness :
    envW.cancelAt = none ∧ (entriesPaths "r" treeVidBadW).Nodup ∧
    (scanVidBad2.added = 0 ∧ scanVidBad2.db = scanVidBad1.db ∧
      scanVidBad2.skipped + scanVidBad2.errors
        = scanVidBad1.added + scanVidBad1.skipped + scanVidBad1.errors ∧
      scanVidBad1.added + scanVidBad1.skipped ≤ scanVidBad2.skipped) :=
  ⟨rfl, by decide,
    rescan_idempotent envW "r" treeVidBadW [] [] 1 scanVidBad1 scanVidBad2 rfl (by decide)
      rfl rfl⟩
